import Mathlib

/-!
Verification development for the GoMobileAnalyzer server core
(`ServerGo/core`): the SGF move-tree model and parsers, KataGo query
construction and annotation, the response dispatcher and the streaming
analysis session.  Python source files are shallowly embedded as
executable Lean definitions; machine floats of the source are modelled
as rationals.
-/

set_option maxHeartbeats 1000000

/-- The players string `PLAYERS = "BW"` of `Move`; players are modelled as the
one-character strings `"B"` and `"W"` that the Python code passes around. -/
def playersBW : List String := ["B", "W"]

/-- `Move.SGF_COORD`: lowercase letters `a`-`z` followed by uppercase `A`-`Z`
(52 entries), as built by
`list("ABCDEFGHIJKLMNOPQRSTUVWXYZ".lower()) + list("ABCDEFGHIJKLMNOPQRSTUVWXYZ")`. -/
def sgfCoordChars : List Char :=
  "abcdefghijklmnopqrstuvwxyzABCDEFGHIJKLMNOPQRSTUVWXYZ".toList

/-- `Move.GTP_COORD`: the 25 letters `A`-`Z` without `I`, then the two-letter
extensions `xa + c` for `xa` in `"ABCDEFGH"` and `c` in the 25 letters. -/
def gtpCoordStrings : List String :=
  let singles := "ABCDEFGHJKLMNOPQRSTUVWXYZ".toList.map (fun c => String.mk [c])
  let doubles := ("ABCDEFGH".toList.map (fun xa =>
    "ABCDEFGHJKLMNOPQRSTUVWXYZ".toList.map (fun c => String.mk [xa, c]))).flatten
  singles ++ doubles

/-- Python list subscript `l[i]` for an `Int` index: negative indices count
from the end, out-of-range access raises (modelled as `none`). -/
def pyListGet {α : Type} (l : List α) (i : Int) : Option α :=
  if 0 ≤ i then l.get? i.toNat
  else if 0 ≤ i + l.length then l.get? (i + l.length).toNat
  else none

/-- Python `list.index(x)`: index of the first occurrence, raising
`ValueError` (modelled as `none`) when absent. -/
def pyListIndex {α : Type} [DecidableEq α] (l : List α) (x : α) : Option Nat :=
  l.indexOf? x

/-- `Move`: an immutable value of a player `"B"`/`"W"` and an optional
zero-based `(column, row)` coordinate; `none` coordinates mean pass.
Coordinates are `Int` because the Python code never range-checks them. -/
structure GoMove where
  player : String
  coords : Option (Int × Int)
deriving DecidableEq, Repr

/-- `Move.opponent_player`: `"W" if player == "B" else "B"`. -/
def GoMove.opponentPlayer (player : String) : String :=
  if player = "B" then "W" else "B"

/-- `Move.from_sgf(sgf_coords, board_size, player)`: the empty string, and
`"tt"` on boards no larger than 19x19, decode as a pass; otherwise the first
character indexes the column in `SGF_COORD` and the second character `c`
gives row `board_size[1] - SGF_COORD.index(c) - 1`.  `none` models the
uncaught `ValueError`/`IndexError` on characters outside `SGF_COORD` or
strings shorter than two characters. -/
def GoMove.fromSgf (sgfCoords : String) (boardSize : Int × Int)
    (player : String) : Option GoMove :=
  if sgfCoords = "" ∨
      (sgfCoords = "tt" ∧ boardSize.1 ≤ 19 ∧ boardSize.2 ≤ 19) then
    some { player := player, coords := none }
  else
    match sgfCoords.toList with
    | c0 :: c1 :: _ =>
      match pyListIndex sgfCoordChars c0, pyListIndex sgfCoordChars c1 with
      | some i0, some i1 =>
        some { player := player,
               coords := some ((i0 : Int), boardSize.2 - (i1 : Int) - 1) }
      | _, _ => none
    | _ => none

/-- `Move.sgf(board_size)`: passes serialize to `""`; a coordinate `(x, y)`
serializes to `SGF_COORD[x]` followed by `SGF_COORD[board_size[1] - y - 1]`.
`none` models the uncaught `IndexError` on coordinates outside the table. -/
def GoMove.sgf (m : GoMove) (boardSize : Int × Int) : Option String :=
  match m.coords with
  | none => some ""
  | some (x, y) =>
    match pyListGet sgfCoordChars x,
        pyListGet sgfCoordChars (boardSize.2 - y - 1) with
    | some cx, some cy => some (String.mk [cx, cy])
    | _, _ => none

/-- `Move.gtp()`: passes print as `"pass"`; a coordinate `(x, y)` prints as
`GTP_COORD[x]` followed by the decimal of `y + 1`. -/
def GoMove.gtp (m : GoMove) : Option String :=
  match m.coords with
  | none => some "pass"
  | some (x, y) =>
    match pyListGet gtpCoordStrings x with
    | some s => some (s ++ toString (y + 1))
    | none => none

/-- Python whitespace characters recognized by `str.strip()` and `float()`
(ASCII subset; exotic unicode spaces are outside the inputs modelled here). -/
def pyIsSpace (c : Char) : Bool :=
  c = ' ' ∨ c = '\t' ∨ c = '\n' ∨ c = '\x0d' ∨ c = '\x0b' ∨ c = '\x0c'

/-- Python `str.strip()`: remove leading and trailing whitespace. -/
def pyStrip (s : String) : String :=
  String.mk (((s.toList.dropWhile pyIsSpace).reverse.dropWhile pyIsSpace).reverse)

/-- Digit list to the natural number it denotes in base 10. -/
def natOfDigits (l : List Char) : Nat :=
  l.foldl (fun a c => 10 * a + (c.toNat - 48)) 0

/-- Python `float(s)` on plain decimal literals: optional surrounding
whitespace, an optional sign, digits with an optional fractional part
(at least one digit overall).  `none` models the `ValueError` on malformed
input.  Exponent/inf/nan forms are outside the inputs modelled here. -/
def pyFloat (s : String) : Option ℚ :=
  let l := (pyStrip s).toList
  let (sign, l) : ℚ × List Char :=
    match l with
    | '+' :: r => (1, r)
    | '-' :: r => (-1, r)
    | _ => (1, l)
  let intPart := l.takeWhile Char.isDigit
  let l2 := l.dropWhile Char.isDigit
  match l2 with
  | '.' :: r =>
    let fracPart := r.takeWhile Char.isDigit
    let rest := r.dropWhile Char.isDigit
    if rest = [] ∧ (intPart ≠ [] ∨ fracPart ≠ []) then
      some (sign * ((natOfDigits intPart : ℚ) +
        (natOfDigits fracPart : ℚ) / (10 : ℚ) ^ fracPart.length))
    else none
  | [] =>
    if intPart ≠ [] then some (sign * (natOfDigits intPart : ℚ)) else none
  | _ => none

/-- Python `int(s)`: optional surrounding whitespace, optional sign, one or
more digits; `none` models the `ValueError` on anything else. -/
def pyInt (s : String) : Option Int :=
  let l := (pyStrip s).toList
  let (sign, l) : Int × List Char :=
    match l with
    | '+' :: r => (1, r)
    | '-' :: r => (-1, r)
    | _ => (1, l)
  if l ≠ [] ∧ l.all Char.isDigit then some (sign * (natOfDigits l : Int))
  else none

/-- A property value stored in an `SGFNode` property list: parsing stores
strings, while the legacy parsers and komi fix-ups store Python numbers. -/
inductive PVal where
  | str (s : String)
  | num (q : ℚ)
  | int (n : Int)
deriving DecidableEq, Repr

/-- Python `float(val)` on a property value: numbers pass through, strings
go through decimal parsing. -/
def pyFloatOf : PVal → Option ℚ
  | .str s => pyFloat s
  | .num q => some q
  | .int n => some (n : ℚ)

/-- `SGFNode.komi`: `float(root.get_property("KM", 6.5))`, with a
`ValueError` producing `None`.  The argument is the first value of the
root's `KM` property when present. -/
def sgfNodeKomi (km : Option PVal) : Option ℚ :=
  match km with
  | none => some (13 / 2)
  | some v => pyFloatOf v

/-- Python `x or default` for an optional float: `None` and `0.0` are falsy
and replaced by the default. -/
def komiOrDefault (komi : Option ℚ) : ℚ :=
  match komi with
  | none => 13 / 2
  | some k => if k = 0 then 13 / 2 else k

/-- Python `x or default` for an optional string: `None` and `""` are falsy
and replaced by the default. -/
def pyOrStr (v : Option String) (d : String) : String :=
  match v with
  | none => d
  | some s => if s = "" then d else s

/-- Python `range(a, b)` as a list of integers. -/
def pyRange (a b : Int) : List Int :=
  (List.range (b - a).toNat).map (fun (i : Nat) => a + (i : Int))

/-- The data `construct_katago_query` and `analyze_streaming_generator` read
off a parsed record: `moves` and `initialStones` are `[player, gtp-text]`
pairs as built from the tree (`nodes_in_tree`/`placements`), and `komi` is
the root's `SGFNode.komi` value. -/
structure RecordData where
  moves : List (String × String)
  initialStones : List (String × String)
  initialPlayer : String
  ruleset : Option String
  komi : Option ℚ
  boardXSize : Int
  boardYSize : Int
deriving DecidableEq, Repr

/-- The engine query dictionary written to KataGo's standard input. -/
structure KataGoQuery where
  id : String
  moves : List (String × String)
  initialStones : List (String × String)
  initialPlayer : String
  rules : String
  komi : ℚ
  boardXSize : Int
  boardYSize : Int
  analyzeTurns : List Int
  maxVisits : Int
  includeOwnership : Bool
  includePolicy : Bool
deriving DecidableEq, Repr

/-- `construct_katago_query` turn selection: with zero moves but at least one
placed stone the single position after setup is evaluated; otherwise the
requested range defaults to `[0, totalTurns]` and both ends are clamped into
that interval, producing `range(s, e + 1)`. -/
def constructAnalyzeTurns (totalTurns : Nat) (numInitialStones : Nat)
    (startTurn endTurn : Option Int) : List Int :=
  if totalTurns = 0 ∧ 0 < numInitialStones then [0]
  else
    let s0 := startTurn.getD 0
    let e0 := endTurn.getD (totalTurns : Int)
    let s := max 0 (min s0 (totalTurns : Int))
    let e := max s (min e0 (totalTurns : Int))
    pyRange s (e + 1)

/-- `construct_katago_query(req_id, sgf_content, visits, start_turn,
end_turn, include_ownership)` after SGF parsing and record extraction:
returns the query and `num_expected_results = len(analyze_turns)`. -/
def constructKatagoQuery (reqId : String) (rec : RecordData) (visits : Int)
    (startTurn endTurn : Option Int) (includeOwnership : Bool) :
    KataGoQuery × Nat :=
  let analyzeTurns := constructAnalyzeTurns rec.moves.length
    rec.initialStones.length startTurn endTurn
  ({ id := reqId
     moves := rec.moves
     initialStones := rec.initialStones
     initialPlayer := rec.initialPlayer
     rules := pyOrStr rec.ruleset "japanese"
     komi := komiOrDefault rec.komi
     boardXSize := rec.boardXSize
     boardYSize := rec.boardYSize
     analyzeTurns := analyzeTurns
     maxVisits := visits
     includeOwnership := includeOwnership
     includePolicy := includeOwnership }, analyzeTurns.length)

/-- One entry of a KataGo response's `moveInfos` list; absent keys are
`none` and replaced by the `dict.get` defaults at use sites. -/
structure EngineMoveInfo where
  move : Option String
  winrate : Option ℚ
  scoreLead : Option ℚ
  visits : Option Int
  order : Option Int
  pv : Option (List String)
deriving DecidableEq, Repr

/-- A KataGo response's `rootInfo` object (absent keys are `none`); a
response with no `rootInfo` at all behaves as the all-`none` value, matching
`result.get("rootInfo", {})`. -/
structure EngineRootInfo where
  winrate : Option ℚ
  scoreLead : Option ℚ
  currentPlayer : Option String
deriving DecidableEq, Repr

/-- One parsed KataGo response line for a request, as consumed by the
streaming drain loop. -/
structure EngineResponse where
  turnNumber : Option Int
  rootInfo : EngineRootInfo
  moveInfos : List EngineMoveInfo
deriving DecidableEq, Repr

/-- Python `round(q, 1)` used on winrates and scores.  Machine floats are
modelled as rationals; the half-way tie behavior of binary floats is
approximated by rounding half upward, which agrees everywhere the claims
evaluate it. -/
def round1 (q : ℚ) : ℚ := (round (q * 10) : ℚ) / 10

/-- One entry of the caller-facing `topMoves` list. -/
structure TopMove where
  move : Option String
  winrate : ℚ
  scoreLead : ℚ
  visits : Int
  pv : List String
deriving DecidableEq, Repr

/-- The caller-facing per-turn dictionary yielded by
`analyze_streaming_generator`. -/
structure StreamResult where
  turn : Int
  total : Nat
  winrate : ℚ
  score : ℚ
  currentPlayer : String
  topMoves : List TopMove
deriving DecidableEq, Repr

/-- The yield block of `analyze_streaming_generator` (lines 291-308):
translate one engine response into the caller-facing shape, applying the
dynamic turn offset. -/
def formatStreamResult (yieldOffset : Int) (numExpected : Nat)
    (r : EngineResponse) : StreamResult :=
  { turn := r.turnNumber.getD 0 + yieldOffset
    total := numExpected
    winrate := round1 ((r.rootInfo.winrate.getD 0) * 100)
    score := round1 (r.rootInfo.scoreLead.getD 0)
    currentPlayer := r.rootInfo.currentPlayer.getD "B"
    topMoves := r.moveInfos.map (fun m =>
      { move := m.move
        winrate := round1 ((m.winrate.getD 0) * 100)
        scoreLead := round1 (m.scoreLead.getD 0)
        visits := m.visits.getD 0
        pv := m.pv.getD [] }) }

/-- The first-move/setup-stone collision correction of
`analyze_streaming_generator` (lines 205-227): when the move list and the
initial-stone list are both non-empty and the first move's coordinate text
equals some stone's coordinate text, the first move is dropped, the initial
player is flipped, and the yield offset becomes 2 instead of 1. -/
def streamingCollision (moves : List (String × String))
    (initialStones : List (String × String)) (initialPlayer : String) :
    List (String × String) × String × Int :=
  match moves, initialStones with
  | first :: rest, _ :: _ =>
    if initialStones.any (fun s => s.2 = first.2) then
      (rest, GoMove.opponentPlayer initialPlayer, 2)
    else (moves, initialPlayer, 1)
  | _, _ => (moves, initialPlayer, 1)

/-- `analyze_streaming_generator` turn selection (lines 230-241): with zero
moves but at least one placed stone the single setup position is analyzed;
otherwise the requested range defaults to `[1, totalTurns]`, is clamped, and
position `N - 1` is analyzed for each selected move `N`, giving
`range(s - 1, e)`. -/
def streamAnalyzeTurns (totalTurns : Nat) (numInitialStones : Nat)
    (startTurn endTurn : Option Int) : List Int :=
  if totalTurns = 0 ∧ 0 < numInitialStones then [0]
  else
    let s0 := startTurn.getD 1
    let e0 := endTurn.getD (totalTurns : Int)
    let s := max 1 (min s0 (totalTurns : Int))
    let e := max s (min e0 (totalTurns : Int))
    pyRange (s - 1) e

/-- The query built and sent by `analyze_streaming_generator` (lines
191-268), together with `num_expected` and the yield offset. -/
def analyzeStreamingQuery (reqId : String) (rec : RecordData) (visits : Int)
    (startTurn endTurn : Option Int) : KataGoQuery × Nat × Int :=
  let c := streamingCollision rec.moves rec.initialStones rec.initialPlayer
  let moves := c.1
  let initialPlayer := c.2.1
  let yieldOffset := c.2.2
  let analyzeTurns := streamAnalyzeTurns moves.length rec.initialStones.length
    startTurn endTurn
  ({ id := reqId
     moves := moves
     initialStones := rec.initialStones
     initialPlayer := initialPlayer
     rules := pyOrStr rec.ruleset "japanese"
     komi := komiOrDefault rec.komi
     boardXSize := rec.boardXSize
     boardYSize := rec.boardYSize
     analyzeTurns := analyzeTurns
     maxVisits := visits
     includeOwnership := false
     includePolicy := false }, analyzeTurns.length, yieldOffset)

/-- A pending-request table entry: the expected result count and the list of
responses the dispatcher has appended so far. -/
structure PendingEntry where
  numExpected : Nat
  results : List EngineResponse
deriving DecidableEq, Repr

/-- The `pending_requests` dictionary, request id to entry. -/
def PendingTable : Type := List (String × PendingEntry)

/-- Dictionary lookup: first binding of the key. -/
def tableLookup (tbl : PendingTable) (k : String) : Option PendingEntry :=
  (tbl.find? (fun p => p.1 = k)).map (fun p => p.2)

/-- Dictionary assignment `tbl[k] = v`. -/
def tableInsert (tbl : PendingTable) (k : String) (v : PendingEntry) :
    PendingTable :=
  (k, v) :: tbl.filter (fun p => ¬p.1 = k)

/-- Dictionary removal `tbl.pop(k, None)`. -/
def tablePop (tbl : PendingTable) (k : String) : PendingTable :=
  tbl.filter (fun p => ¬p.1 = k)

/-- Append responses to a pending entry's result list, as the dispatcher
does while the session drains. -/
def tableAppend (tbl : PendingTable) (k : String) (rs : List EngineResponse) :
    PendingTable :=
  tbl.map (fun p => if p.1 = k then (p.1, ⟨p.2.numExpected, p.2.results ++ rs⟩) else p)

/-- What one polling iteration of the drain loop observes: either a
non-empty batch of newly arrived responses, or nothing new, with `timedOut`
recording whether the per-turn window has expired since the last arrival. -/
inductive PollObs where
  | newResults (rs : List EngineResponse)
  | quiet (timedOut : Bool)
deriving DecidableEq, Repr

/-- Outcome of the drain loop: `done` on reaching the expected count,
`failed` models the `StreamingTimeout` error, `running` means the observation
trace ended with the loop still polling.  Each carries the results yielded to
the caller so far. -/
inductive DrainOutcome where
  | done (outputs : List StreamResult)
  | failed (outputs : List StreamResult)
  | running (outputs : List StreamResult)
deriving DecidableEq, Repr

/-- The drain loop of `analyze_streaming_generator` (lines 270-319), driven
by an observation trace: new results are yielded in arrival order with the
offset applied; an expired per-turn window pops the pending entry and fails
with `StreamingTimeout`; reaching the expected count pops the entry and
finishes. -/
def drainLoop (tbl : PendingTable) (reqId : String) (numExpected : Nat)
    (yieldOffset : Int) (received : Nat) (acc : List StreamResult)
    (obs : List PollObs) : DrainOutcome × PendingTable :=
  if received < numExpected then
    match obs with
    | [] => (.running acc, tbl)
    | .newResults rs :: rest =>
      drainLoop (tableAppend tbl reqId rs) reqId numExpected yieldOffset
        (received + rs.length)
        (acc ++ rs.map (formatStreamResult yieldOffset numExpected)) rest
    | .quiet true :: _ => (.failed acc, tablePop tbl reqId)
    | .quiet false :: rest =>
      drainLoop tbl reqId numExpected yieldOffset received acc rest
  else (.done acc, tablePop tbl reqId)

/-- A full streaming session: build the query (with collision correction),
register the pending entry, then drain against the observation trace.
Returns the sent query, the outcome, and the final pending table. -/
def analyzeStreamingRun (tbl : PendingTable) (reqId : String)
    (rec : RecordData) (visits : Int) (startTurn endTurn : Option Int)
    (obs : List PollObs) : KataGoQuery × DrainOutcome × PendingTable :=
  let q := analyzeStreamingQuery reqId rec visits startTurn endTurn
  let r := drainLoop (tableInsert tbl reqId ⟨q.2.1, []⟩) reqId q.2.1 q.2.2 0 [] obs
  (q.1, r.1, r.2)

/-- The outputs carried by a drain outcome. -/
def DrainOutcome.outputs : DrainOutcome → List StreamResult
  | .done o => o
  | .failed o => o
  | .running o => o

/-- A response delivered by some batch of an observation trace. -/
def deliveredIn (r : EngineResponse) (obs : List PollObs) : Prop :=
  ∃ rs, PollObs.newResults rs ∈ obs ∧ r ∈ rs

/-- Whether a drain outcome is terminal: the session completed normally or
failed with `StreamingTimeout` (as opposed to still polling). -/
def DrainOutcome.isTerminal : DrainOutcome → Bool
  | .done _ => true
  | .failed _ => true
  | .running _ => false

/-- One successfully `json.loads`-parsed response line as the dispatcher
sees it: `id` is the value of the top-level `id` key (absent keys are
`none`), `hasError` records the presence of a top-level `error` key, and
`payload` is the response content the session later reads. -/
structure RespLine where
  id : Option String
  hasError : Bool
  payload : EngineResponse
deriving DecidableEq, Repr

/-- Python truthiness of `response.get("id")`: `None` and the empty string
are falsy. -/
def pyTruthyStr : Option String → Bool
  | none => false
  | some s => s ≠ ""

/-- What one iteration of `_dispatch_responses` observes: a line taken from
the response queue (`none` models a line that fails `json.loads` or is not
an object, caught as `JSONDecodeError`/`AttributeError`), or a `queue.Empty`
timeout together with the process liveness the loop then checks. -/
inductive DispatchEvent where
  | line (raw : Option RespLine)
  | empty (running : Bool)
deriving DecidableEq, Repr

/-- One iteration of the `_dispatch_responses` loop (lines 133-163): parse
failures and error-bearing lines are logged and dropped; a line with a
truthy recognized id and no error field is appended to that id's pending
entry.  Returns the updated table, the id appended to (if any), and whether
the loop continues. -/
def dispatchStep (tbl : PendingTable) (ev : DispatchEvent) :
    PendingTable × Option String × Bool :=
  match ev with
  | .line none => (tbl, none, true)
  | .line (some resp) =>
    if pyTruthyStr resp.id = true ∧ resp.hasError = false then
      match resp.id with
      | some i =>
        if (tableLookup tbl i).isSome then
          (tableAppend tbl i [resp.payload], some i, true)
        else (tbl, none, true)
      | none => (tbl, none, true)
    else (tbl, none, true)
  | .empty running => (tbl, none, running)

/-- The sort key `m.get("order", 99)` used on `moveInfos` by
`process_analysis_results`. -/
def orderKey (m : EngineMoveInfo) : Int := m.order.getD 99

/-- Insert into an ascending-by-`orderKey` list, placing the new element
after existing elements of equal key. -/
def insertByOrder (x : EngineMoveInfo) : List EngineMoveInfo →
    List EngineMoveInfo
  | [] => [x]
  | y :: ys =>
    if orderKey x < orderKey y then x :: y :: ys else y :: insertByOrder x ys

/-- `sorted(analysis.get("moveInfos", []), key=lambda m: m.get("order", 99))`:
Python's sort is stable and ascending, modelled by a stable insertion sort. -/
def sortByOrder (l : List EngineMoveInfo) : List EngineMoveInfo :=
  l.foldl (fun acc x => insertByOrder x acc) []

/-- The variation loop of `process_analysis_results` (lines 90-118) over the
already-sorted candidate list: a candidate whose `move` text differs from
the played move's text gets a variation (and bumps the count); the loop
breaks once the count reaches 3. -/
def annotateVariationsAux (played : Option String) :
    List EngineMoveInfo → Nat → List EngineMoveInfo
  | [], _ => []
  | info :: rest, count =>
    if info.move ≠ played then
      if count + 1 ≥ 3 then [info]
      else info :: annotateVariationsAux played rest (count + 1)
    else annotateVariationsAux played rest count

/-- The candidates for which `process_analysis_results` creates (or reuses)
a sibling variation at one analyzed node, in creation order. -/
def annotateVariations (infos : List EngineMoveInfo)
    (played : Option String) : List EngineMoveInfo :=
  annotateVariationsAux played (sortByOrder infos) 0

/-- `SGFNode.play(move)` restricted to the data C7 observes: the node's
children, each represented by its optional single move; an existing child
with an equal move is reused, otherwise one new child is appended. -/
def playChild (children : List (Option GoMove)) (mv : GoMove) :
    List (Option GoMove) :=
  if children.any (fun c => c = some mv) then children
  else children ++ [some mv]

/-- Errors a legacy-parser run can signal: `parseErr` models a raised
`ParseError`, `exn` models any other uncaught Python exception
(`IndexError`, `ValueError`). -/
inductive PyErr where
  | parseErr (msg : String)
  | exn (msg : String)
deriving DecidableEq, Repr

/-- The move tree as the legacy parsers build it: ordered properties on each
node and an ordered child list. -/
inductive SGFTree where
  | node (props : List (String × List PVal)) (children : List SGFTree)

/-- The children of a tree node. -/
def SGFTree.children : SGFTree → List SGFTree
  | .node _ cs => cs

/-- The properties of a tree node. -/
def SGFTree.props : SGFTree → List (String × List PVal)
  | .node ps _ => ps

/-- Whether a property key is present (mirrors `key in node.properties`). -/
def propsHasKey (props : List (String × List PVal)) (k : String) : Bool :=
  props.any (fun p => p.1 = k)

/-- First list of values bound to a key. -/
def propsGet (props : List (String × List PVal)) (k : String) :
    Option (List PVal) :=
  (props.find? (fun p => p.1 = k)).map (fun p => p.2)

/-- `set_property`: assign a value list to a key, keeping insertion order for
new keys and updating in place for existing ones. -/
def setProp (props : List (String × List PVal)) (k : String)
    (vs : List PVal) : List (String × List PVal) :=
  if propsHasKey props k then
    props.map (fun p => if p.1 = k then (p.1, vs) else p)
  else props ++ [(k, vs)]

/-- The linear chain of single-move nodes hung under the legacy parsers'
root (`node = NODE_CLASS(parent=node); node.set_property(key, value)`). -/
def moveChain : List (String × String) → List SGFTree
  | [] => []
  | (k, v) :: rest => [SGFTree.node [(k, [PVal.str v])] (moveChain rest)]

/-- Python `s[a:b]` slicing on strings, with negative indices counted from
the end and silent clamping. -/
def pySlice (l : List Char) (a b : Int) : List Char :=
  let n : Int := l.length
  let a2 := if a < 0 then max 0 (a + n) else min a n
  let b2 := if b < 0 then max 0 (b + n) else min b n
  (l.take b2.toNat).drop a2.toNat

/-- String form of `pySlice`. -/
def pySliceStr (s : String) (a b : Int) : String :=
  String.mk (pySlice s.toList a b)

/-- Python `s.split(sep)` for a one-character separator: parts between
separator occurrences, keeping empties (`"".split(sep) == [""]`). -/
def pySplitOnCharAux (sep : Char) : List Char → List Char → List String
  | [], acc => [String.mk acc.reverse]
  | c :: rest, acc =>
    if c = sep then String.mk acc.reverse :: pySplitOnCharAux sep rest []
    else pySplitOnCharAux sep rest (c :: acc)

/-- Python `s.split(sep)` for a one-character separator. -/
def pySplitOnChar (sep : Char) (s : String) : List String :=
  pySplitOnCharAux sep s.toList []

/-- Python `s.split()` with no argument: split on whitespace runs, dropping
empty parts. -/
def pySplitWsAux : List Char → List Char → List String
  | [], acc => if acc = [] then [] else [String.mk acc.reverse]
  | c :: rest, acc =>
    if pyIsSpace c then
      if acc = [] then pySplitWsAux rest []
      else String.mk acc.reverse :: pySplitWsAux rest []
    else pySplitWsAux rest (c :: acc)

/-- Python `s.split()` with no argument. -/
def pySplitWs (s : String) : List String :=
  pySplitWsAux s.toList []

/-- Python `sub in s`: substring containment. -/
def isSubstrOf (sub : List Char) : List Char → Bool
  | [] => sub = []
  | l@(_ :: rest) => sub.isPrefixOf l || isSubstrOf sub rest

/-- Python `sub in s` on strings. -/
def pyContains (s sub : String) : Bool :=
  isSubstrOf sub.toList s.toList

/-- Python `s.startswith(pre)`. -/
def pyStartsWith (s pre : String) : Bool :=
  pre.toList.isPrefixOf s.toList

/-- Python `s.endswith(suf)`. -/
def pyEndsWith (s suf : String) : Bool :=
  suf.toList.isSuffixOf s.toList

/-- `list({...})` over a Python set: duplicates removed.  CPython's set
iteration order is unspecified; first-occurrence order is used here, and no
claim depends on the order. -/
def pySetDedup {α : Type} [DecidableEq α] (l : List α) : List α :=
  l.foldl (fun acc x => if x ∈ acc then acc else acc ++ [x]) []

/-- `re.search` of a pattern `pre(\d+)post` with literal `pre`/`post`
(such as `GRLT:(\d+),`): try each position left to right; a match needs the
prefix, one or more digits (maximal, since `post` starts with a non-digit),
and the suffix right after. -/
def searchNumAt (pre post : List Char) (l : List Char) : Option Nat :=
  if pre.isPrefixOf l then
    let after := l.drop pre.length
    let ds := after.takeWhile Char.isDigit
    if ds ≠ [] ∧ post.isPrefixOf (after.drop ds.length) then
      some (natOfDigits ds)
    else none
  else none

/-- Scan all positions for `searchNumAt`. -/
def searchNumAux (pre post : List Char) : List Char → Option Nat
  | [] => none
  | l@(_ :: rest) =>
    match searchNumAt pre post l with
    | some n => some n
    | none => searchNumAux pre post rest

/-- `re.search(pre + r"(\d+)" + post, s)` for literal `pre`/`post`. -/
def searchNum (pre post s : String) : Option Nat :=
  searchNumAux pre.toList post.toList s.toList

/-- A match of `C(\d\d\d\d):(\d\d):(\d\d)` at one position. -/
def searchDateAt (l : List Char) : Option (String × String × String) :=
  match l with
  | 'C' :: y1 :: y2 :: y3 :: y4 :: ':' :: m1 :: m2 :: ':' :: d1 :: d2 :: _ =>
    if [y1, y2, y3, y4, m1, m2, d1, d2].all Char.isDigit then
      some (String.mk [y1, y2, y3, y4], String.mk [m1, m2], String.mk [d1, d2])
    else none
  | _ => none

/-- Scan all positions for `searchDateAt`. -/
def searchDateAux : List Char → Option (String × String × String)
  | [] => none
  | l@(_ :: rest) =>
    match searchDateAt l with
    | some r => some r
    | none => searchDateAux rest

/-- `re.search(r"C(\d\d\d\d):(\d\d):(\d\d)", s)`. -/
def searchDate (s : String) : Option (String × String × String) :=
  searchDateAux s.toList

/-- `str(zipsu / 10)` for the GIB point difference: one decimal digit, with
a trailing `.0` for whole values, as Python prints these small floats. -/
def formatZipsu (z : Nat) : String :=
  toString (z / 10) ++ "." ++ toString (z % 10)

/-- `gib_make_result(grlt, zipsu)`: result codes 3/4/7/8 map to
resign/time wins, 0/1 to counted wins with the point difference, anything
else to the empty string. -/
def gibMakeResult (grlt : Nat) (zipsu : Nat) : String :=
  if grlt = 3 then "B+R"
  else if grlt = 4 then "W+R"
  else if grlt = 7 then "B+T"
  else if grlt = 8 then "W+T"
  else if grlt = 0 then "B+" ++ formatZipsu zipsu
  else if grlt = 1 then "W+" ++ formatZipsu zipsu
  else ""

/-- `gib_get_result(line, grlt_regex, zipsu_regex)`: both numbers must be
found, otherwise the empty string (the bare `except` makes this total). -/
def gibGetResult (line : String) (grltPre grltPost zipsuPre zipsuPost : String) :
    String :=
  match searchNum grltPre grltPost line, searchNum zipsuPre zipsuPost line with
  | some grlt, some zipsu => gibMakeResult grlt zipsu
  | _, _ => ""

/-- `parse_player_name(raw)`: split `"Name(Rank)"`; `none` models the
uncaught `IndexError` when the text after `(` is empty. -/
def parsePlayerName (raw : String) : Option (String × String) :=
  match pySplitOnChar '(' raw with
  | [a, b] =>
    match b.toList.getLast? with
    | none => none
    | some c =>
      if c = ')' then some (pyStrip a, String.mk b.toList.dropLast)
      else some (raw, "")
  | _ => some (raw, "")

/-- `str(root.get_property("SZ", "19"))` then the `":"` split and `int()`
conversions of `SGFNode.board_size`: an integer value round-trips, a float
value makes `int()` raise (`none`), a string value is parsed directly. -/
def boardSizeFromPVal : PVal → Option (Int × Int)
  | .int n => some (n, n)
  | .num _ => none
  | .str s =>
    if s.toList.contains ':' then
      match pySplitOnChar ':' s with
      | [a, b] =>
        match pyInt a, pyInt b with
        | some x, some y => some (x, y)
        | _, _ => none
      | _ => none
    else (pyInt s).map (fun n => (n, n))

/-- `SGFNode.board_size` read from a root property list, defaulting to
19x19. -/
def rootBoardSize (props : List (String × List PVal)) : Option (Int × Int) :=
  match propsGet props "SZ" with
  | none => some (19, 19)
  | some vals =>
    match vals.head? with
    | none => none
    | some v => boardSizeFromPVal v

/-- The fixed corner/edge/center handicap points of
`place_handicap_stones` for at most 9 stones. -/
def handicapStonesList (n : Int) (bx by2 : Int) : List (Int × Int) :=
  let nearx := if bx ≥ 13 then 3 else min 2 (bx - 1)
  let neary := if by2 ≥ 13 then 3 else min 2 (by2 - 1)
  let farx := bx - 1 - nearx
  let fary := by2 - 1 - neary
  let midx := bx / 2
  let midy := by2 / 2
  [(farx, fary), (nearx, neary), (farx, neary), (nearx, fary)]
    ++ (if n % 2 = 1 then [(midx, midy)] else [])
    ++ [(nearx, midy), (farx, midy), (midx, neary), (midx, fary)]

/-- The tygem swap `stones[2], stones[3] = stones[3], stones[2]`. -/
def swapStones23 {α : Type} : List α → List α
  | a :: b :: c :: d :: rest => a :: b :: d :: c :: rest
  | l => l

/-- `SGFNode.place_handicap_stones(n, tygem)`: the outer `none` models an
uncaught exception while serializing a stone; the inner `none` means the
function returned without setting `AB` (board smaller than 3).  The float
spiral layout for more than 9 stones is not modelled: both legacy parsers
reject handicap above 9 before ever calling this. -/
def placeHandicapStones (n : Int) (tygem : Bool) (bx by2 : Int) :
    Option (Option (List String)) :=
  if min bx by2 < 3 then some none
  else if n > 9 ∧ bx = by2 then none
  else
    let stones := handicapStonesList n bx by2
    let stones := if tygem then swapStones23 stones else stones
    let sgfs := (stones.take n.toNat).map
      (fun st => GoMove.sgf ⟨"B", some st⟩ (bx, by2))
    if sgfs.all Option.isSome then
      some (some (pySetDedup (sgfs.map (fun o => o.getD ""))))
    else none

/-- One `PM` move line of an NGF file: after strip and uppercase, at least 7
characters, `PM` prefix, a `B`/`W` at index 4, and the two-letter coordinate
at indices 5-6 shifted down by one character code. -/
def ngfMoveOfLine (line : String) : Option (String × String) :=
  let l := (pyStrip line).toList.map Char.toUpper
  if l.length ≥ 7 then
    if l.take 2 = ['P', 'M'] then
      match l.get? 4 with
      | some c4 =>
        if c4 = 'B' ∨ c4 = 'W' then
          match ((l.drop 5).take 2).map Char.toLower with
          | [r0, r1] =>
            some (String.mk [c4],
              String.mk [Char.ofNat (r0.toNat - 1), Char.ofNat (r1.toNat - 1)])
          | _ => none
        else none
      | none => none
    else none
  else none

/-- The all-or-nothing metadata `try` block of `SGF.parse_ngf`: board size,
handicap, player names, raw date and komi, with the half-point komi
correction; any `IndexError`/`ValueError` falls back to the defaults. -/
def ngfMeta (lines : List String) :
    Option (Int × Int × String × String × String × ℚ) := do
  let l1 ← lines.get? 1
  let boardsize ← pyInt l1
  let l5 ← lines.get? 5
  let handicap ← pyInt l5
  let l2 ← lines.get? 2
  let pw ← (pySplitWs l2).get? 0
  let l3 ← lines.get? 3
  let pb ← (pySplitWs l3).get? 0
  let l8 ← lines.get? 8
  let rawdate := pySliceStr l8 0 8
  let l7 ← lines.get? 7
  let komi0 ← pyFloat l7
  let komi := if handicap = 0 ∧ komi0.den = 1 then komi0 + 1 / 2 else komi0
  pure (boardsize, handicap, pw, pb, rawdate, komi)

/-- The stripped, newline-split lines of an NGF input. -/
def ngfLines (ngf : String) : List String :=
  pySplitOnChar '\n' (pyStrip ngf)

/-- `ngfMeta` with the `except` defaults applied. -/
def ngfMetaD (lines : List String) :
    Int × Int × String × String × String × ℚ :=
  (ngfMeta lines).getD (19, 0, "", "", "", 0)

/-- The result field read from line 10 (`pass` on `IndexError`). -/
def ngfRe (lines : List String) : String :=
  match lines.get? 10 with
  | some l10 =>
    if pyContains l10 "hite win" then "W+"
    else if pyContains l10 "lack win" then "B+"
    else ""
  | none => ""

/-- The handicap-stone placement of `parse_ngf`: the outer `none` models
the uncaught exception inside `place_handicap_stones`; the middle layer is
`none` when the handicap is below 2 (no `HA` property); the inner layer is
the `AB` value list when one was set. -/
def ngfStones (lines : List String) : Option (Option (Option (List String))) :=
  let meta := ngfMetaD lines
  if meta.2.1 ≥ 2 then
    match placeHandicapStones meta.2.1 true meta.1 meta.1 with
    | none => none
    | some ab => some (some ab)
  else some none

/-- The root property list `parse_ngf` assembles, in `set_property`
order: `SZ`, then `HA`/`AB` when handicap stones were placed, `KM` for a
truthy komi, `DT` for an 8-digit date, then `PW`, `PB`, `RE`. -/
def ngfProps (lines : List String) (habs : Option (Option (List String))) :
    List (String × List PVal) :=
  let meta := ngfMetaD lines
  let boardsize := meta.1
  let handicap := meta.2.1
  let pw := meta.2.2.1
  let pb := meta.2.2.2.1
  let rawdate := meta.2.2.2.2.1
  let komi := meta.2.2.2.2.2
  let re := ngfRe lines
  let props := setProp [] "SZ" [.int boardsize]
  let props :=
    match habs with
    | some abOpt =>
      let props := setProp props "HA" [.int handicap]
      match abOpt with
      | some abvals => setProp props "AB" (abvals.map PVal.str)
      | none => props
    | none => props
  let props := if komi ≠ 0 then setProp props "KM" [.num komi] else props
  let props :=
    if rawdate.length = 8 ∧ rawdate.toList.all Char.isDigit then
      setProp props "DT"
        [.str (pySliceStr rawdate 0 4 ++ "-" ++ pySliceStr rawdate 4 6
          ++ "-" ++ pySliceStr rawdate 6 8)]
    else props
  let props := if pw ≠ "" then setProp props "PW" [.str pw] else props
  let props := if pb ≠ "" then setProp props "PB" [.str pb] else props
  if re ≠ "" then setProp props "RE" [.str re] else props

/-- The `PM` move list of an NGF input. -/
def ngfMoves (lines : List String) : List (String × String) :=
  lines.filterMap ngfMoveOfLine

/-- `SGF.parse_ngf`: metadata with defaults, the handicap range check, root
properties, the `PM` move chain, and the zero-moves rejection.  Note that
`parse_ngf` only sets `HA` when handicap stones are placed, so `ngfProps`
receives the flattened placement outcome. -/
def parseNgf (ngf : String) : Except PyErr SGFTree :=
  if (ngfMetaD (ngfLines ngf)).2.1 < 0 ∨ (ngfMetaD (ngfLines ngf)).2.1 > 9 then
    .error (.parseErr "Handicap out of range")
  else
    match ngfStones (ngfLines ngf) with
    | none => .error (.exn "IndexError placing handicap stones")
    | some habs =>
      if ngfMoves (ngfLines ngf) = [] then .error (.parseErr "Found no moves")
      else .ok (SGFTree.node (ngfProps (ngfLines ngf) habs)
        (moveChain (ngfMoves (ngfLines ngf))))

/-- The `GAMEBLACKNAME`/`GAMEWHITENAME` blocks of `SGF.parse_gib`. -/
def gibNameBlock (tag nameKey rankKey : String)
    (props : List (String × List PVal)) (line : String) :
    Except PyErr (List (String × List PVal)) :=
  if pyStartsWith line tag ∧ pyEndsWith line "\\]" then
    match parsePlayerName (pySliceStr line 16 (-2)) with
    | none => .error (.exn "IndexError in parse_player_name")
    | some (name, rank) =>
      let props := if name ≠ "" then setProp props nameKey [.str name]
        else props
      let props := if rank ≠ "" then setProp props rankKey [.str rank]
        else props
      .ok props
  else .ok props

/-- The `GAMEINFOMAIN` block of `SGF.parse_gib` (total: failures are
swallowed by the bare `except`). -/
def gibInfoMainBlock (props : List (String × List PVal)) (line : String) :
    List (String × List PVal) :=
  if pyStartsWith line "\\[GAMEINFOMAIN=" then
    let result := gibGetResult line "GRLT:" "," "ZIPSU:" ","
    if result ≠ "" then
      let props := setProp props "RE" [.str result]
      match searchNum "GONGJE:" "," line with
      | some z =>
        let komi : ℚ := (z : ℚ) / 10
        if komi ≠ 0 then setProp props "KM" [.num komi] else props
      | none => props
    else props
  else props

/-- The `GAMETAG` block of `SGF.parse_gib` (total). -/
def gibTagBlock (props : List (String × List PVal)) (line : String) :
    List (String × List PVal) :=
  if pyStartsWith line "\\[GAMETAG=" then
    let props :=
      if propsHasKey props "DT" = false then
        match searchDate line with
        | some (y, m, d) =>
          setProp props "DT" [.str (y ++ "-" ++ m ++ "-" ++ d)]
        | none => props
      else props
    let props :=
      if propsHasKey props "RE" = false then
        let result := gibGetResult line ",W" "," ",Z" ","
        if result ≠ "" then setProp props "RE" [.str result] else props
      else props
    let props :=
      if propsHasKey props "KM" = false then
        match searchNum ",G" "," line with
        | some z =>
          let komi : ℚ := (z : ℚ) / 10
          if komi ≠ 0 then setProp props "KM" [.num komi] else props
        | none => props
      else props
    props
  else props

/-- The `INI` block of `SGF.parse_gib`: only allowed before any move; the
handicap index/parse errors are uncaught (the `except ParseError` clause
never fires for them), the range check raises `ParseError`. -/
def gibIniBlock (props : List (String × List PVal))
    (moves : List (String × String)) (line : String) :
    Except PyErr (List (String × List PVal)) :=
  if pySliceStr line 0 3 = "INI" then
    if moves ≠ [] then .error (.parseErr "Node is not root")
    else
      match (pySplitWs line).get? 3 with
      | none => .error (.exn "IndexError reading handicap")
      | some s3 =>
        match pyInt s3 with
        | none => .error (.exn "ValueError reading handicap")
        | some handicap =>
          if handicap < 0 ∨ handicap > 9 then
            .error (.parseErr "Handicap out of range")
          else if handicap ≥ 2 then
            match rootBoardSize props with
            | none => .error (.exn "ValueError reading board size")
            | some (bx, by2) =>
              match placeHandicapStones handicap true bx by2 with
              | none => .error (.exn "IndexError placing handicap stones")
              | some ab =>
                let props := setProp props "HA" [.int handicap]
                match ab with
                | some abvals => .ok (setProp props "AB" (abvals.map PVal.str))
                | none => .ok props
          else .ok props
  else .ok props

/-- The `STO` move block of `SGF.parse_gib`: a missing color field is an
uncaught `IndexError`; missing coordinates are caught and skip the line;
unparseable coordinates are uncaught `ValueError`s; out-of-range coordinates
raise `ParseError`. -/
def gibStoBlock (moves : List (String × String)) (line : String) :
    Except PyErr (List (String × String)) :=
  if pySliceStr line 0 3 = "STO" then
    let parts := pySplitWs line
    match parts.get? 3 with
    | none => .error (.exn "IndexError reading color")
    | some m3 =>
      let key := if m3 = "1" then "B" else "W"
      match parts.get? 4, parts.get? 5 with
      | some m4, some m5 =>
        match pyInt m4, pyInt m5 with
        | some x, some y0 =>
          let y := 18 - y0
          if ¬(0 ≤ x ∧ x < 19 ∧ 0 ≤ y ∧ y < 19) then
            .error (.parseErr "Coordinates out of range")
          else
            match GoMove.sgf ⟨"B", some (x, y)⟩ (19, 19) with
            | some v => .ok (moves ++ [(key, v)])
            | none => .error (.exn "IndexError serializing move")
        | _, _ => .error (.exn "ValueError reading coordinates")
      | _, _ => .ok moves
  else .ok moves

/-- One line of the `SGF.parse_gib` loop: the blocks run in source order on
the stripped line. -/
def gibProcessLine (props : List (String × List PVal))
    (moves : List (String × String)) (line0 : String) :
    Except PyErr (List (String × List PVal) × List (String × String)) := do
  let line := pyStrip line0
  let props ← gibNameBlock "\\[GAMEBLACKNAME=" "PB" "BR" props line
  let props ← gibNameBlock "\\[GAMEWHITENAME=" "PW" "WR" props line
  let props := gibInfoMainBlock props line
  let props := gibTagBlock props line
  let props ← gibIniBlock props moves line
  let moves ← gibStoBlock moves line
  pure (props, moves)

/-- The `SGF.parse_gib` line loop. -/
def gibLoop : List String → List (String × List PVal) →
    List (String × String) →
    Except PyErr (List (String × List PVal) × List (String × String))
  | [], props, moves => .ok (props, moves)
  | line :: rest, props, moves =>
    match gibProcessLine props moves line with
    | .error e => .error e
    | .ok (props2, moves2) => gibLoop rest props2 moves2

/-- `SGF.parse_gib`: run the line loop and reject a record that produced no
moves. -/
def parseGib (gib : String) : Except PyErr SGFTree :=
  match gibLoop (pySplitOnChar '\n' gib) [] [] with
  | .error e => .error e
  | .ok (props, moves) =>
    if moves = [] then .error (.parseErr "No valid nodes found")
    else .ok (SGFTree.node props (moveChain moves))

/-- A token of the primary SGF format, as matched by `SGFPROP_PAT`
(`\s*(?:\(|\)|;|(\w+)((\s*\[([^\]\\]|\\.)*\])+))`): an open or close
parenthesis, a semicolon, or a tag with one or more bracketed values.  A
`prop` carries the raw tag and the raw inner text between the first `[` and
the last `]` of its value groups. -/
inductive Tok where
  | openB
  | closeB
  | semi
  | prop (tag : String) (rawInner : List Char)
deriving DecidableEq, Repr

/-- How the token stream ends: clean end of input, or a position where
`SGFPROP_PAT` fails to match (an unrecognized token, including
trailing whitespace). -/
inductive Term where
  | eof
  | garbage
deriving DecidableEq, Repr

/-- A word character of the regex `\w` (ASCII; unicode word characters are
outside the inputs modelled here). -/
def isWordChar (c : Char) : Bool :=
  c.isAlpha || c.isDigit || c = '_'

/-- The content of one bracketed value group `\[([^\]\\]|\\.)*\]`, given the
characters after the opening `[`: escaped pairs pass through, a bare `]`
closes the group; `none` when the input ends before the closing `]` (the
regex then fails to match). -/
def bracketContent : (l : List Char) →
    Option (List Char × {r : List Char // r.length < l.length})
  | [] => none
  | ']' :: r => some ([], ⟨r, by simp⟩)
  | '\\' :: c :: r =>
    match bracketContent r with
    | some (cs, ⟨r2, h⟩) =>
      some ('\\' :: c :: cs, ⟨r2, by simp at h ⊢; omega⟩)
    | none => none
  | ['\\'] => none
  | c :: r =>
    match bracketContent r with
    | some (cs, ⟨r2, h⟩) => some (c :: cs, ⟨r2, by simp at h ⊢; omega⟩)
    | none => none

/-- The `(\s*\[...\])+` repetition after the first value group: keep
accumulating groups (recording the raw `]…[` separators) while whitespace
followed by `[` continues the match; the remainder starts after the last
complete group. -/
def propGroupsAux (rest : List Char) (acc : List Char) :
    List Char × List Char :=
  match h2 : rest.dropWhile pyIsSpace with
  | '[' :: r1 =>
    match bracketContent r1 with
    | some (content, ⟨r2, hr2⟩) =>
      propGroupsAux r2 (acc ++ ']' :: (rest.takeWhile pyIsSpace ++ '[' :: content))
    | none => (acc, rest)
  | _ => (acc, rest)
termination_by rest.length
decreasing_by
  have hd : rest.dropWhile pyIsSpace = '[' :: r1 := h2
  have h3 : ('[' :: r1).length ≤ rest.length := by
    rw [← hd]
    exact (List.dropWhile_sublist _).length_le
  simp at h3
  omega

lemma propGroupsAux_length (rest : List Char) (acc : List Char) :
    (propGroupsAux rest acc).2.length ≤ rest.length := by
  suffices H : ∀ (n : Nat) (rest acc : List Char), rest.length ≤ n →
      (propGroupsAux rest acc).2.length ≤ rest.length from
    H rest.length rest acc le_rfl
  intro n
  induction n using Nat.strong_induction_on with
  | _ n ih =>
    intro rest acc hle
    rw [propGroupsAux]
    split
    · rename_i r1 h2
      split
      · rename_i content r2 hr2 hb
        have h3 : ('[' :: r1).length ≤ rest.length := by
          rw [← h2]
          exact (List.dropWhile_sublist _).length_le
        simp at h3
        have := ih r2.length (by omega) r2
          (acc ++ ']' :: (rest.takeWhile pyIsSpace ++ '[' :: content)) le_rfl
        omega
      · simp
    · simp

/-- `re.split(r"\]\s*\[", inner)`: split the raw inner text at every
`]`-whitespace-`[` occurrence, left to right. -/
def splitValuesAux : (l : List Char) → (acc : List Char) → List (List Char)
  | [], acc => [acc.reverse]
  | ']' :: rest, acc =>
    match h2 : rest.dropWhile pyIsSpace with
    | '[' :: r2 => acc.reverse :: splitValuesAux r2 []
    | _ => splitValuesAux rest (']' :: acc)
  | c :: rest, acc => splitValuesAux rest (c :: acc)
termination_by l _ => l.length
decreasing_by
  · have h3 : ('[' :: r2).length ≤ rest.length := by
      rw [← h2]
      exact (List.dropWhile_sublist _).length_le
    simp at h3
    simp
    omega
  · simp
  · simp

/-- `SGFNode._unescape_value`: `\]` and `\\` collapse to the bare
character; any other character (including a stray backslash) passes
through. -/
def unescapeValue : List Char → List Char
  | [] => []
  | '\\' :: ']' :: r => ']' :: unescapeValue r
  | '\\' :: '\\' :: r => '\\' :: unescapeValue r
  | c :: r => c :: unescapeValue r

/-- The value list of a property token: split the raw inner text, then
unescape each part, as `_parse_branch` does. -/
def propValues (rawInner : List Char) : List String :=
  (splitValuesAux rawInner []).map (fun v => String.mk (unescapeValue v))

/-- One `SGFPROP_PAT` match at the current position: skip whitespace, then
a parenthesis, semicolon, or tag-with-value-groups; `none` when nothing
matches (the parser then stops with an error).  The returned remainder is
strictly shorter, every match consuming at least one character. -/
def nextTok (l : List Char) :
    Option (Tok × {r : List Char // r.length < l.length}) :=
  match h1 : l.dropWhile pyIsSpace with
  | [] => none
  | c :: r =>
    have hlen : (c :: r).length ≤ l.length := by
      rw [← h1]
      exact (List.dropWhile_sublist _).length_le
    if c = '(' then some (.openB, ⟨r, by simp at hlen; omega⟩)
    else if c = ')' then some (.closeB, ⟨r, by simp at hlen; omega⟩)
    else if c = ';' then some (.semi, ⟨r, by simp at hlen; omega⟩)
    else if isWordChar c then
      let tag := (c :: r).takeWhile isWordChar
      let afterTag := (c :: r).dropWhile isWordChar
      match h2 : afterTag.dropWhile pyIsSpace with
      | '[' :: r1 =>
        match bracketContent r1 with
        | some (content, ⟨r2, hlen2⟩) =>
          some (.prop (String.mk tag) (propGroupsAux r2 content).1,
            ⟨(propGroupsAux r2 content).2, by
              have hg := propGroupsAux_length r2 content
              have h3 : ('[' :: r1).length ≤ afterTag.length := by
                rw [← h2]
                exact (List.dropWhile_sublist _).length_le
              have h4 : afterTag.length ≤ (c :: r).length :=
                (List.dropWhile_sublist _).length_le
              simp at h3 h4 hlen
              omega⟩)
        | none => none
      | _ => none
    else none

/-- Tokenize the input after the initial `(`: the token list (each with the
raw remaining text after it, used by the empty-`;` check) and the way the
stream ends. -/
def tokenize (l : List Char) : List (Tok × List Char) × Term :=
  if l = [] then ([], .eof)
  else
    match nextTok l with
    | none => ([], .garbage)
    | some (t, ⟨rest, h⟩) =>
      let res := tokenize rest
      ((t, rest) :: res.1, res.2)
termination_by l.length
decreasing_by
  exact h

/-- The parse errors `SGF.__init__`/`SGF._parse_branch` can raise. -/
inductive SgfErr where
  | expectedOpenAtStart
  | unexpectedChar
  | expectedClose
deriving DecidableEq, Repr

/-- `node.empty`: no children and no properties. -/
def isEmptyNode : SGFTree → Bool
  | .node props children => props.isEmpty && children.isEmpty

/-- Append a child, as attaching a new `SGFNode` to its parent does. -/
def addChild : SGFTree → SGFTree → SGFTree
  | .node props children, child => .node props (children ++ [child])

/-- `add_list_property`: normalize the tag by deleting lowercase letters,
then append the values to the property's list (creating it at the end in
insertion order). -/
def addListProp (t : SGFTree) (tag : String) (values : List String) :
    SGFTree :=
  match t with
  | .node props children =>
    let norm := String.mk (tag.toList.filter (fun c => ¬('a' ≤ c ∧ c ≤ 'z')))
    let vs := values.map PVal.str
    if propsHasKey props norm then
      .node (props.map (fun p =>
        if p.1 = norm then (p.1, p.2 ++ vs) else p)) children
    else .node (props ++ [(norm, vs)]) children

/-- `SGF._parse_branch`, driven by the token stream: `)` returns the node
built so far, `(` parses a child branch and continues, `;` advances to a
fresh child node unless the current node is empty or only the closing `)`
remains, a property token extends the current node; an exhausted stream
raises the unrecognized-token error or the missing-`)` error according to
how tokenization ended. -/
def parseBranch : (toks : List (Tok × List Char)) → Term → SGFTree →
    Except SgfErr (SGFTree × {r : List (Tok × List Char) // r.length ≤ toks.length})
  | [], .garbage, _ => .error .unexpectedChar
  | [], .eof, _ => .error .expectedClose
  | (tok, suffix) :: rest, term, cur =>
    match tok with
    | .closeB => .ok (cur, ⟨rest, by simp⟩)
    | .openB =>
      match parseBranch rest term (SGFTree.node [] []) with
      | .error e => .error e
      | .ok (child, ⟨rest2, h2⟩) =>
        match parseBranch rest2 term (addChild cur child) with
        | .error e => .error e
        | .ok (cur2, ⟨rest3, h3⟩) => .ok (cur2, ⟨rest3, by simp; omega⟩)
    | .semi =>
      if isEmptyNode cur ∨ pyStrip (String.mk suffix) = ")" then
        match parseBranch rest term cur with
        | .error e => .error e
        | .ok (cur2, ⟨rest2, h2⟩) => .ok (cur2, ⟨rest2, by simp; omega⟩)
      else
        match parseBranch rest term (SGFTree.node [] []) with
        | .error e => .error e
        | .ok (child, ⟨rest2, h2⟩) =>
          .ok (addChild cur child, ⟨rest2, by simp; omega⟩)
    | .prop tag rawInner =>
      match parseBranch rest term (addListProp cur tag (propValues rawInner)) with
      | .error e => .error e
      | .ok (cur2, ⟨rest2, h2⟩) => .ok (cur2, ⟨rest2, by simp; omega⟩)
termination_by toks _ _ => toks.length
decreasing_by
  all_goals simp
  all_goals omega

/-- `contents.index("(")`: the characters after the first `(`, or `none`. -/
def dropThroughParen : List Char → Option (List Char)
  | [] => none
  | '(' :: r => some r
  | _ :: r => dropThroughParen r

/-- `SGF.__init__(contents)`: find the first `(` (raising on its absence)
and parse one branch into a fresh root from the characters after it. -/
def sgfInit (contents : String) : Except SgfErr SGFTree :=
  match dropThroughParen contents.toList with
  | none => .error .expectedOpenAtStart
  | some after =>
    let tk := tokenize after
    match parseBranch tk.1 tk.2 (SGFTree.node [] []) with
    | .error e => .error e
    | .ok (root, _) => .ok root

/-- The kinds of a token-entry list, for the depth scan. -/
def tokKinds (entries : List (Tok × List Char)) : List Tok :=
  entries.map (fun e => e.1)

/-- Reference depth scan over the token kinds: does a `)` close the branch
opened before position 0 (with `d` further nested branches still open)?
This is the specification-level notion of the game tree being closed by a
final `)` among recognized tokens. -/
def closesScan : List Tok → Nat → Bool
  | [], _ => false
  | .closeB :: rest, d => if d = 0 then true else closesScan rest (d - 1)
  | .openB :: rest, d => closesScan rest (d + 1)
  | _ :: rest, d => closesScan rest d

/-- The error `_parse_branch` raises when the token stream runs out, by
terminator kind. -/
def termErr : Term → SgfErr
  | .garbage => .unexpectedChar
  | .eof => .expectedClose

/-! ## Theorems -/

lemma sgfCoordChars_length : sgfCoordChars.length = 52 := by decide

lemma sgfCoordChars_get_indexOf :
    ∀ i : Nat, i < 52 →
      (sgfCoordChars.get? i).bind (fun c => pyListIndex sgfCoordChars c) = some i := by
  decide

lemma sgfCoordChars_lookup (i : Nat) (h : i < 52) :
    ∃ c, sgfCoordChars.get? i = some c ∧ pyListIndex sgfCoordChars c = some i := by
  have h1 := sgfCoordChars_get_indexOf i h
  cases hg : sgfCoordChars.get? i with
  | none => rw [hg] at h1; simp at h1
  | some c =>
    refine ⟨c, rfl, ?_⟩
    rw [hg] at h1
    simpa using h1

lemma tt_index_unique (c : Char) (i : Nat)
    (hidx : pyListIndex sgfCoordChars c = some i) (hc : c = 't') : i = 19 := by
  subst hc
  have : pyListIndex sgfCoordChars 't' = some 19 := by decide
  rw [this] at hidx
  exact (Option.some_injective _ hidx).symm

/-- C5: for every zero-based coordinate valid on a board of size at most
52x52, serializing to the compact two-letter SGF form and decoding for the
same board size yields the original coordinate; and the reserved `"tt"` value
decodes as a pass exactly when both board dimensions are at most 19, while on
a larger board it decodes to the ordinary coordinate `(19, height - 20)`. -/
theorem sgf_coordinate_roundtrip (p : String) (col row bsx bsy : Nat)
    (hc : col < bsx) (hr : row < bsy) (hx : bsx ≤ 52) (hy : bsy ≤ 52) :
    (∃ s, GoMove.sgf ⟨p, some ((col : Int), (row : Int))⟩ ((bsx : Int), (bsy : Int))
            = some s ∧
          GoMove.fromSgf s ((bsx : Int), (bsy : Int)) p
            = some ⟨p, some ((col : Int), (row : Int))⟩) ∧
    (GoMove.fromSgf "tt" ((bsx : Int), (bsy : Int)) p =
      if bsx ≤ 19 ∧ bsy ≤ 19 then some ⟨p, none⟩
      else some ⟨p, some (19, (bsy : Int) - 20)⟩) := by
  constructor
  · -- round trip
    obtain ⟨c0, hc0get, hc0idx⟩ := sgfCoordChars_lookup col (lt_of_lt_of_le hc hx)
    have hn1 : bsy - row - 1 < 52 := by omega
    obtain ⟨c1, hc1get, hc1idx⟩ := sgfCoordChars_lookup (bsy - row - 1) hn1
    have hcast : (bsy : Int) - (row : Int) - 1 = ((bsy - row - 1 : Nat) : Int) := by
      omega
    have hsgf : GoMove.sgf ⟨p, some ((col : Int), (row : Int))⟩
        ((bsx : Int), (bsy : Int)) = some (String.mk [c0, c1]) := by
      rw [List.get?_eq_getElem?] at hc0get hc1get
      unfold GoMove.sgf pyListGet
      simp only [hcast]
      simp [hc0get, hc1get]
    refine ⟨String.mk [c0, c1], hsgf, ?_⟩
    have hnotempty : String.mk [c0, c1] ≠ "" := by
      intro h
      have := congrArg String.data h
      simp at this
    have hcond : ¬(String.mk [c0, c1] = "" ∨
        (String.mk [c0, c1] = "tt" ∧ ((bsx : Int), (bsy : Int)).1 ≤ 19 ∧
          ((bsx : Int), (bsy : Int)).2 ≤ 19)) := by
      rintro (h | ⟨htt, hb1, _⟩)
      · exact hnotempty h
      · -- "tt" forces col = 19, contradicting bsx ≤ 19
        have hdata : ([c0, c1] : List Char) = ['t', 't'] := congrArg String.data htt
        have hc0t : c0 = 't' := by injection hdata with h1 h2
        have : col = 19 := tt_index_unique c0 col hc0idx hc0t
        omega
    unfold GoMove.fromSgf
    rw [if_neg hcond]
    have htl : (String.mk [c0, c1]).toList = [c0, c1] := rfl
    rw [htl]
    simp only [hc0idx, hc1idx]
    have hrow : (bsy : Int) - ((bsy - row - 1 : Nat) : Int) - 1 = (row : Int) := by
      omega
    simp [hrow]
  · -- the reserved "tt" value
    by_cases hsmall : bsx ≤ 19 ∧ bsy ≤ 19
    · rw [if_pos hsmall]
      unfold GoMove.fromSgf
      rw [if_pos]
      right
      refine ⟨rfl, ?_, ?_⟩ <;> simp <;> omega
    · rw [if_neg hsmall]
      unfold GoMove.fromSgf
      rw [if_neg]
      · have htl : ("tt" : String).toList = ['t', 't'] := rfl
        rw [htl]
        have hidx : pyListIndex sgfCoordChars 't' = some 19 := by decide
        simp only [hidx]
        norm_num
        omega
      · rintro (h | ⟨-, hb1, hb2⟩)
        · exact absurd (congrArg String.data h) (by simp)
        · refine hsmall ⟨?_, ?_⟩ <;> simp at hb1 hb2 <;> omega

/-- Witness for `sgf_coordinate_roundtrip` at the concrete coordinate
`(2, 3)` on a 19x19 board. -/
theorem sgf_coordinate_roundtrip_witness :
    (2 < 19 ∧ 3 < 19 ∧ 19 ≤ 52 ∧ 19 ≤ 52) ∧
    ((∃ s, GoMove.sgf ⟨"B", some ((2 : Int), (3 : Int))⟩ ((19 : Int), (19 : Int))
            = some s ∧
          GoMove.fromSgf s ((19 : Int), (19 : Int)) "B"
            = some ⟨"B", some ((2 : Int), (3 : Int))⟩) ∧
    (GoMove.fromSgf "tt" ((19 : Int), (19 : Int)) "B" =
      if 19 ≤ 19 ∧ 19 ≤ 19 then some ⟨"B", none⟩
      else some ⟨"B", some (19, (19 : Int) - 20)⟩)) :=
  ⟨by decide,
   sgf_coordinate_roundtrip "B" 2 3 19 19 (by decide) (by decide) (by decide)
     (by decide)⟩

lemma pyRange_self_succ (a : Int) : pyRange a (a + 1) = [a] := by
  have h : (a + 1 - a).toNat = 1 := by omega
  unfold pyRange
  rw [h, show List.range 1 = [0] from by decide]
  simp

lemma mem_pyRange {t a b : Int} (h : t ∈ pyRange a b) : a ≤ t ∧ t < b := by
  unfold pyRange at h
  rw [List.mem_map] at h
  obtain ⟨i, hi, rfl⟩ := h
  rw [List.mem_range] at hi
  omega

lemma pyFloat_zero_str : pyFloat "0" = some 0 := by
  rw [show pyFloat "0" = some (1 * ((natOfDigits ['0'] : Nat) : ℚ)) from rfl]
  rw [show natOfDigits ['0'] = 0 from by decide]
  norm_num

/-- C10: a record whose root komi property evaluates to `0` (such as
`KM[0]`) or to no value at all (unparseable `KM`) produces engine queries
whose `komi` field is `6.5`, not `0`: the falsy value is replaced by the
default in both `construct_katago_query` and
`analyze_streaming_generator`. -/
theorem query_komi_never_zero (reqId : String) (rec : RecordData)
    (visits : Int) (st et : Option Int) (io : Bool) (km : Option PVal)
    (hk : rec.komi = sgfNodeKomi km)
    (h : sgfNodeKomi km = some 0 ∨ sgfNodeKomi km = none) :
    (constructKatagoQuery reqId rec visits st et io).1.komi = 13 / 2 ∧
    (analyzeStreamingQuery reqId rec visits st et).1.komi = 13 / 2 ∧
    (constructKatagoQuery reqId rec visits st et io).1.komi ≠ 0 := by
  have hq : komiOrDefault rec.komi = 13 / 2 := by
    rw [hk]
    rcases h with h | h <;> rw [h] <;> simp [komiOrDefault]
  refine ⟨?_, ?_, ?_⟩
  · simpa [constructKatagoQuery] using hq
  · simpa [analyzeStreamingQuery] using hq
  · have : (constructKatagoQuery reqId rec visits st et io).1.komi = 13 / 2 := by
      simpa [constructKatagoQuery] using hq
    rw [this]
    norm_num

/-- Witness for `query_komi_never_zero` on a record carrying `KM[0]`. -/
theorem query_komi_never_zero_witness :
    ((RecordData.mk [] [] "B" none (sgfNodeKomi (some (.str "0"))) 19 19).komi
        = sgfNodeKomi (some (.str "0")) ∧
      (sgfNodeKomi (some (.str "0")) = some 0 ∨
        sgfNodeKomi (some (.str "0")) = none)) ∧
    ((constructKatagoQuery "r"
        ⟨[], [], "B", none, sgfNodeKomi (some (.str "0")), 19, 19⟩
        100 none none true).1.komi = 13 / 2 ∧
      (analyzeStreamingQuery "r"
        ⟨[], [], "B", none, sgfNodeKomi (some (.str "0")), 19, 19⟩
        100 none none).1.komi = 13 / 2 ∧
      (constructKatagoQuery "r"
        ⟨[], [], "B", none, sgfNodeKomi (some (.str "0")), 19, 19⟩
        100 none none true).1.komi ≠ 0) := by
  have hz : sgfNodeKomi (some (.str "0")) = some 0 := by
    rw [show sgfNodeKomi (some (.str "0")) = pyFloat "0" from rfl]
    exact pyFloat_zero_str
  exact ⟨⟨rfl, Or.inl hz⟩,
    query_komi_never_zero "r"
      ⟨[], [], "B", none, sgfNodeKomi (some (.str "0")), 19, 19⟩
      100 none none true (some (.str "0")) rfl (Or.inl hz)⟩

lemma constructAnalyzeTurns_subset (totalTurns numStones : Nat)
    (st et : Option Int) (t : Int)
    (h : t ∈ constructAnalyzeTurns totalTurns numStones st et) :
    0 ≤ t ∧ t ≤ (totalTurns : Int) := by
  unfold constructAnalyzeTurns at h
  split at h
  · rename_i hcond
    rw [List.mem_singleton] at h
    omega
  · have := mem_pyRange h
    omega

lemma streamAnalyzeTurns_subset (totalTurns numStones : Nat)
    (st et : Option Int) (t : Int)
    (h : t ∈ streamAnalyzeTurns totalTurns numStones st et) :
    0 ≤ t ∧ t ≤ (totalTurns : Int) := by
  unfold streamAnalyzeTurns at h
  split at h
  · rename_i hcond
    rw [List.mem_singleton] at h
    omega
  · have := mem_pyRange h
    omega

lemma streamingCollision_length_le (moves initialStones : List (String × String))
    (p : String) :
    (streamingCollision moves initialStones p).1.length ≤ moves.length := by
  unfold streamingCollision
  match moves, initialStones with
  | [], [] => simp
  | [], _ :: _ => simp
  | _ :: _, [] => simp
  | first :: rest, s :: ss =>
    dsimp only
    split <;> simp

/-- C6: building a query over a record with `N` main-line moves clamps the
requested turn range: bounds beyond `N` produce the analyzed-turn set `[N]`,
bounds below `0` produce `[0]`, and for every requested range the analyzed
turns lie within `[0, N]` — both for `construct_katago_query` and for the
turn set sent by `analyze_streaming_generator`. -/
theorem turn_range_clamp (reqId : String) (rec : RecordData) (visits : Int)
    (io : Bool) (s0 e0 s1 e1 : Int)
    (hs0 : (rec.moves.length : Int) < s0) (he0 : (rec.moves.length : Int) < e0)
    (hs1 : s1 < 0) (he1 : e1 < 0) :
    (constructKatagoQuery reqId rec visits (some s0) (some e0) io).1.analyzeTurns
        = [(rec.moves.length : Int)] ∧
    (constructKatagoQuery reqId rec visits (some s1) (some e1) io).1.analyzeTurns
        = [0] ∧
    (∀ st et : Option Int,
      ∀ t ∈ (constructKatagoQuery reqId rec visits st et io).1.analyzeTurns,
        0 ≤ t ∧ t ≤ (rec.moves.length : Int)) ∧
    (∀ st et : Option Int,
      ∀ t ∈ (analyzeStreamingQuery reqId rec visits st et).1.analyzeTurns,
        0 ≤ t ∧ t ≤ (rec.moves.length : Int)) := by
  set N := rec.moves.length with hN
  refine ⟨?_, ?_, ?_, ?_⟩
  · show constructAnalyzeTurns N rec.initialStones.length (some s0) (some e0)
      = [(N : Int)]
    unfold constructAnalyzeTurns
    split
    · rename_i hcond
      rw [hcond.1]
      norm_num
    · have hmin0 : min s0 (N : Int) = (N : Int) := by omega
      have hmin1 : min e0 (N : Int) = (N : Int) := by omega
      dsimp only [Option.getD]
      rw [hmin0, hmin1]
      have hmax0 : max 0 (N : Int) = (N : Int) := by omega
      rw [hmax0]
      have hmax1 : max (N : Int) (N : Int) = (N : Int) := by omega
      rw [hmax1]
      exact pyRange_self_succ _
  · show constructAnalyzeTurns N rec.initialStones.length (some s1) (some e1)
      = [0]
    unfold constructAnalyzeTurns
    split
    · rfl
    · have hmin0 : max 0 (min s1 (N : Int)) = 0 := by omega
      dsimp only [Option.getD]
      rw [hmin0]
      have hmax1 : max 0 (min e1 (N : Int)) = 0 := by omega
      rw [hmax1]
      have : (0 : Int) + 1 = 0 + 1 := rfl
      simpa using pyRange_self_succ 0
  · intro st et t ht
    exact constructAnalyzeTurns_subset N rec.initialStones.length st et t ht
  · intro st et t ht
    have hsub := streamAnalyzeTurns_subset
      (streamingCollision rec.moves rec.initialStones rec.initialPlayer).1.length
      rec.initialStones.length st et t ht
    have hle := streamingCollision_length_le rec.moves rec.initialStones
      rec.initialPlayer
    omega

/-- Witness for `turn_range_clamp` on a concrete two-move record with
requested ranges `[10, 20]` and `[-5, -1]`. -/
theorem turn_range_clamp_witness :
    (((RecordData.mk [("B", "Q16"), ("W", "D4")] [] "B" none none 19 19).moves.length : Int) < 10 ∧
     ((RecordData.mk [("B", "Q16"), ("W", "D4")] [] "B" none none 19 19).moves.length : Int) < 20 ∧
     (-5 : Int) < 0 ∧ (-1 : Int) < 0) ∧
    ((constructKatagoQuery "r" (RecordData.mk [("B", "Q16"), ("W", "D4")] [] "B" none none 19 19)
        100 (some 10) (some 20) true).1.analyzeTurns = [(2 : Int)] ∧
     (constructKatagoQuery "r" (RecordData.mk [("B", "Q16"), ("W", "D4")] [] "B" none none 19 19)
        100 (some (-5)) (some (-1)) true).1.analyzeTurns = [0]) := by
  have h := turn_range_clamp "r"
    (RecordData.mk [("B", "Q16"), ("W", "D4")] [] "B" none none 19 19)
    100 true 10 20 (-5) (-1) (by norm_num) (by norm_num) (by norm_num)
    (by norm_num)
  exact ⟨⟨by norm_num, by norm_num, by norm_num, by norm_num⟩, h.1, h.2.1⟩

lemma tableLookup_tablePop (tbl : PendingTable) (k : String) :
    tableLookup (tablePop tbl k) k = none := by
  unfold tableLookup tablePop
  have h : (tbl.filter (fun p => ¬p.1 = k)).find? (fun p => p.1 = k) = none := by
    rw [List.find?_eq_none]
    intro x hx
    rw [List.mem_filter] at hx
    simpa using hx.2
  rw [h]
  rfl

lemma drainLoop_nil_lt {tbl : PendingTable} {reqId : String} {nE : Nat}
    {off : Int} {received : Nat} {acc : List StreamResult}
    (h : received < nE) :
    drainLoop tbl reqId nE off received acc [] = (.running acc, tbl) := by
  rw [drainLoop.eq_def, if_pos h]

lemma drainLoop_reached {tbl : PendingTable} {reqId : String} {nE : Nat}
    {off : Int} {received : Nat} {acc : List StreamResult}
    {obs : List PollObs} (h : ¬received < nE) :
    drainLoop tbl reqId nE off received acc obs
      = (.done acc, tablePop tbl reqId) := by
  rw [drainLoop.eq_def, if_neg h]

lemma drainLoop_newResults {tbl : PendingTable} {reqId : String} {nE : Nat}
    {off : Int} {received : Nat} {acc : List StreamResult}
    {rs : List EngineResponse} {rest : List PollObs} (h : received < nE) :
    drainLoop tbl reqId nE off received acc (.newResults rs :: rest)
      = drainLoop (tableAppend tbl reqId rs) reqId nE off
          (received + rs.length)
          (acc ++ rs.map (formatStreamResult off nE)) rest := by
  rw [drainLoop.eq_def, if_pos h]

lemma drainLoop_quiet_true {tbl : PendingTable} {reqId : String} {nE : Nat}
    {off : Int} {received : Nat} {acc : List StreamResult}
    {rest : List PollObs} (h : received < nE) :
    drainLoop tbl reqId nE off received acc (.quiet true :: rest)
      = (.failed acc, tablePop tbl reqId) := by
  rw [drainLoop.eq_def, if_pos h]

lemma drainLoop_quiet_false {tbl : PendingTable} {reqId : String} {nE : Nat}
    {off : Int} {received : Nat} {acc : List StreamResult}
    {rest : List PollObs} (h : received < nE) :
    drainLoop tbl reqId nE off received acc (.quiet false :: rest)
      = drainLoop tbl reqId nE off received acc rest := by
  rw [drainLoop.eq_def, if_pos h]

lemma drainLoop_terminal_pop (reqId : String) (nE : Nat) (off : Int) :
    ∀ (obs : List PollObs) (tbl : PendingTable) (received : Nat)
      (acc : List StreamResult),
      ((drainLoop tbl reqId nE off received acc obs).1).isTerminal = true →
      tableLookup ((drainLoop tbl reqId nE off received acc obs).2) reqId
        = none := by
  intro obs
  induction obs with
  | nil =>
    intro tbl received acc h
    by_cases hlt : received < nE
    · rw [drainLoop_nil_lt hlt] at h
      simp [DrainOutcome.isTerminal] at h
    · rw [drainLoop_reached hlt]
      exact tableLookup_tablePop tbl reqId
  | cons o rest ih =>
    intro tbl received acc h
    by_cases hlt : received < nE
    · match o with
      | .newResults rs =>
        rw [drainLoop_newResults hlt] at h ⊢
        exact ih _ _ _ h
      | .quiet true =>
        rw [drainLoop_quiet_true hlt]
        exact tableLookup_tablePop tbl reqId
      | .quiet false =>
        rw [drainLoop_quiet_false hlt] at h ⊢
        exact ih _ _ _ h
    · rw [drainLoop_reached hlt]
      exact tableLookup_tablePop tbl reqId

/-- C3: whenever a streaming session reaches a terminal state — the expected
result count received (normal completion) or the per-turn timeout expired
(`StreamingTimeout`) — its pending-request entry is absent from the table, so
no pending entry outlives its session. -/
theorem pending_entry_removed_on_terminal (tbl : PendingTable)
    (reqId : String) (rec : RecordData) (visits : Int) (st et : Option Int)
    (obs : List PollObs)
    (h : ((analyzeStreamingRun tbl reqId rec visits st et obs).2.1).isTerminal
      = true) :
    tableLookup (analyzeStreamingRun tbl reqId rec visits st et obs).2.2 reqId
      = none := by
  unfold analyzeStreamingRun at h ⊢
  exact drainLoop_terminal_pop reqId _ _ obs _ 0 [] h

/-- Witness for `pending_entry_removed_on_terminal`: a session over an empty
record that times out on its first poll. -/
theorem pending_entry_removed_on_terminal_witness :
    ((analyzeStreamingRun [] "req" ⟨[], [], "B", none, none, 19, 19⟩ 100
        none none [.quiet true]).2.1).isTerminal = true ∧
    tableLookup (analyzeStreamingRun [] "req" ⟨[], [], "B", none, none, 19, 19⟩
        100 none none [.quiet true]).2.2 "req" = none :=
  ⟨rfl, pending_entry_removed_on_terminal [] "req"
    ⟨[], [], "B", none, none, 19, 19⟩ 100 none none [.quiet true] rfl⟩

lemma deliveredIn_cons {r : EngineResponse} {o : PollObs} {obs : List PollObs}
    (h : deliveredIn r obs) : deliveredIn r (o :: obs) := by
  obtain ⟨rs, hmem, hr⟩ := h
  exact ⟨rs, List.mem_cons_of_mem _ hmem, hr⟩

lemma drainLoop_outputs_mem (reqId : String) (nE : Nat) (off : Int) :
    ∀ (obs : List PollObs) (tbl : PendingTable) (received : Nat)
      (acc : List StreamResult) (out : StreamResult),
      out ∈ ((drainLoop tbl reqId nE off received acc obs).1).outputs →
      out ∈ acc ∨ ∃ r, deliveredIn r obs ∧ out = formatStreamResult off nE r := by
  intro obs
  induction obs with
  | nil =>
    intro tbl received acc out h
    by_cases hlt : received < nE
    · rw [drainLoop_nil_lt hlt] at h
      exact Or.inl h
    · rw [drainLoop_reached hlt] at h
      exact Or.inl h
  | cons o rest ih =>
    intro tbl received acc out h
    by_cases hlt : received < nE
    · match o with
      | .newResults rs =>
        rw [drainLoop_newResults hlt] at h
        rcases ih _ _ _ _ h with hacc | ⟨r, hr, hout⟩
        · rw [List.mem_append] at hacc
          rcases hacc with hacc | hmap
          · exact Or.inl hacc
          · rw [List.mem_map] at hmap
            obtain ⟨r, hrmem, hout⟩ := hmap
            exact Or.inr ⟨r, ⟨rs, List.mem_cons_self _ _, hrmem⟩, hout.symm⟩
        · exact Or.inr ⟨r, deliveredIn_cons hr, hout⟩
      | .quiet true =>
        rw [drainLoop_quiet_true hlt] at h
        exact Or.inl h
      | .quiet false =>
        rw [drainLoop_quiet_false hlt] at h
        rcases ih _ _ _ _ h with hacc | ⟨r, hr, hout⟩
        · exact Or.inl hacc
        · exact Or.inr ⟨r, deliveredIn_cons hr, hout⟩
    · rw [drainLoop_reached hlt] at h
      exact Or.inl h

/-- C1: when the record has at least one main-line move and at least one
placed stone and the first move's coordinate text equals some placed stone's
coordinate text, the streaming query's move list is the original list without
that first move, its initial player is the opponent of the record's initial
player, and every yielded result's caller-facing `turn` is the engine
`turnNumber` plus 2. -/
theorem collision_offset (reqId : String) (rec : RecordData) (visits : Int)
    (st et : Option Int) (first : String × String)
    (rest : List (String × String))
    (hm : rec.moves = first :: rest) (hs : rec.initialStones ≠ [])
    (hcol : rec.initialStones.any (fun s => s.2 = first.2) = true) :
    (analyzeStreamingQuery reqId rec visits st et).1.moves = rest ∧
    (analyzeStreamingQuery reqId rec visits st et).1.initialPlayer
      = GoMove.opponentPlayer rec.initialPlayer ∧
    (analyzeStreamingQuery reqId rec visits st et).2.2 = 2 ∧
    ∀ (tbl : PendingTable) (obs : List PollObs),
      ∀ out ∈ ((analyzeStreamingRun tbl reqId rec visits st et obs).2.1).outputs,
        ∃ r, deliveredIn r obs ∧
          out = formatStreamResult 2
            (analyzeStreamingQuery reqId rec visits st et).2.1 r ∧
          out.turn = r.turnNumber.getD 0 + 2 := by
  obtain ⟨s0, ss, hstones⟩ := List.exists_cons_of_ne_nil hs
  have hcol' : ((s0 :: ss).any fun s => s.2 = first.2) = true := by
    rw [← hstones]
    exact hcol
  have hcoll : streamingCollision rec.moves rec.initialStones rec.initialPlayer
      = (rest, GoMove.opponentPlayer rec.initialPlayer, 2) := by
    rw [hm, hstones]
    unfold streamingCollision
    dsimp only
    rw [if_pos hcol']
  refine ⟨?_, ?_, ?_, ?_⟩
  · unfold analyzeStreamingQuery
    rw [hcoll]
  · unfold analyzeStreamingQuery
    rw [hcoll]
  · unfold analyzeStreamingQuery
    rw [hcoll]
  · intro tbl obs out hout
    have hoff : (analyzeStreamingQuery reqId rec visits st et).2.2 = 2 := by
      unfold analyzeStreamingQuery
      rw [hcoll]
    dsimp only [analyzeStreamingRun] at hout
    rw [hoff] at hout
    rcases drainLoop_outputs_mem reqId _ 2 obs _ 0 [] out hout with hacc | hdel
    · exact absurd hacc (List.not_mem_nil out)
    · obtain ⟨r, hr, hout⟩ := hdel
      exact ⟨r, hr, hout, by rw [hout]; rfl⟩

/-- Witness for `collision_offset`: a one-move record whose move duplicates
the single placed stone. -/
theorem collision_offset_witness :
    ((RecordData.mk [("B", "Q16")] [("B", "Q16")] "B" none none 19 19).moves
        = ("B", "Q16") :: [] ∧
      (RecordData.mk [("B", "Q16")] [("B", "Q16")] "B" none none 19 19).initialStones
        ≠ [] ∧
      (RecordData.mk [("B", "Q16")] [("B", "Q16")] "B" none none
          19 19).initialStones.any (fun s => s.2 = ("B", "Q16").2) = true) ∧
    ((analyzeStreamingQuery "req"
        (RecordData.mk [("B", "Q16")] [("B", "Q16")] "B" none none 19 19)
        100 none none).1.moves = [] ∧
      (analyzeStreamingQuery "req"
        (RecordData.mk [("B", "Q16")] [("B", "Q16")] "B" none none 19 19)
        100 none none).1.initialPlayer = GoMove.opponentPlayer "B" ∧
      (analyzeStreamingQuery "req"
        (RecordData.mk [("B", "Q16")] [("B", "Q16")] "B" none none 19 19)
        100 none none).2.2 = 2) := by
  have h := collision_offset "req"
    (RecordData.mk [("B", "Q16")] [("B", "Q16")] "B" none none 19 19)
    100 none none ("B", "Q16") [] rfl (by decide) (by decide)
  exact ⟨⟨rfl, by decide, by decide⟩, h.1, h.2.1, h.2.2.1⟩

/-- C2 counterexample: for a concrete 4-move record with no initial stones
and no explicit turn range, the streaming generator's `analyzeTurns` set has
4 positions `[0, 1, 2, 3]` and `num_expected` is 4 — not the 5 positions
`0..4` and 5 results the claim states. -/
theorem full_range_five_results_counterexample :
    (analyzeStreamingQuery "req"
      (RecordData.mk [("B", "Q16"), ("W", "D4"), ("B", "Q3"), ("W", "D16")]
        [] "B" none none 19 19) 100 none none).1.analyzeTurns = [0, 1, 2, 3] ∧
    (analyzeStreamingQuery "req"
      (RecordData.mk [("B", "Q16"), ("W", "D4"), ("B", "Q3"), ("W", "D16")]
        [] "B" none none 19 19) 100 none none).2.1 = 4 ∧
    ¬((analyzeStreamingQuery "req"
        (RecordData.mk [("B", "Q16"), ("W", "D4"), ("B", "Q3"), ("W", "D16")]
          [] "B" none none 19 19) 100 none none).1.analyzeTurns
            = [0, 1, 2, 3, 4] ∧
      (analyzeStreamingQuery "req"
        (RecordData.mk [("B", "Q16"), ("W", "D4"), ("B", "Q3"), ("W", "D16")]
          [] "B" none none 19 19) 100 none none).2.1 = 5) := by
  refine ⟨by decide, by decide, ?_⟩
  intro h
  exact absurd h.2 (by decide)

lemma streamingCollision_no_stones (moves : List (String × String))
    (p : String) : streamingCollision moves [] p = (moves, p, 1) := by
  unfold streamingCollision
  match moves with
  | [] => rfl
  | first :: rest => rfl

/-- C2 (amended): for a record with exactly 4 main-line moves and no initial
stones, a streaming analysis with no explicit turn range sends an
`analyzeTurns` set of 4 positions `0..3` and, when the engine answers each of
them, yields exactly 4 results whose caller-facing `turn` fields are `1..4`
after the offset is applied, each carrying the `topMoves` translated from the
engine's returned candidates. -/
theorem full_range_stream_turns (reqId : String) (rec : RecordData)
    (visits : Int) (h4 : rec.moves.length = 4) (hs : rec.initialStones = []) :
    (analyzeStreamingQuery reqId rec visits none none).1.analyzeTurns
      = [0, 1, 2, 3] ∧
    (analyzeStreamingQuery reqId rec visits none none).2.1 = 4 ∧
    (analyzeStreamingQuery reqId rec visits none none).2.2 = 1 ∧
    ∀ (tbl : PendingTable) (rs : List EngineResponse),
      rs.map (fun r => r.turnNumber) = [some 0, some 1, some 2, some 3] →
      (analyzeStreamingRun tbl reqId rec visits none none
          [.newResults rs]).2.1
        = .done (rs.map (formatStreamResult 1 4)) ∧
      (rs.map (formatStreamResult 1 4)).map (fun o => o.turn)
        = [1, 2, 3, 4] := by
  have hcoll : streamingCollision rec.moves rec.initialStones rec.initialPlayer
      = (rec.moves, rec.initialPlayer, 1) := by
    rw [hs]
    exact streamingCollision_no_stones rec.moves rec.initialPlayer
  have hturns : streamAnalyzeTurns rec.moves.length
      rec.initialStones.length none none = [0, 1, 2, 3] := by
    rw [h4, hs]
    decide
  have ha : (analyzeStreamingQuery reqId rec visits none none).1.analyzeTurns
      = [0, 1, 2, 3] := by
    unfold analyzeStreamingQuery
    rw [hcoll]
    dsimp only
    rw [hturns]
  have hn : (analyzeStreamingQuery reqId rec visits none none).2.1 = 4 := by
    unfold analyzeStreamingQuery
    rw [hcoll]
    dsimp only
    rw [hturns]
    rfl
  have ho : (analyzeStreamingQuery reqId rec visits none none).2.2 = 1 := by
    unfold analyzeStreamingQuery
    rw [hcoll]
  refine ⟨ha, hn, ho, ?_⟩
  intro tbl rs hmap
  have hlen : rs.length = 4 := by
    have := congrArg List.length hmap
    simpa using this
  constructor
  · dsimp only [analyzeStreamingRun]
    rw [hn, ho]
    rw [drainLoop_newResults (by omega)]
    rw [hlen]
    rw [drainLoop_reached (by omega)]
    simp
  · rw [List.map_map]
    rw [show ((fun o => StreamResult.turn o) ∘ formatStreamResult 1 4)
        = (fun r : EngineResponse => r.turnNumber.getD 0 + 1) from rfl]
    rw [show (fun r : EngineResponse => r.turnNumber.getD 0 + 1)
        = ((fun o : Option Int => o.getD 0 + 1) ∘ (fun r => r.turnNumber))
        from rfl]
    rw [← List.map_map, hmap]
    decide

/-- Witness for `full_range_stream_turns` on a concrete 4-move record and
a concrete batch of four engine responses. -/
theorem full_range_stream_turns_witness :
    ((RecordData.mk [("B", "Q16"), ("W", "D4"), ("B", "Q3"), ("W", "D16")]
        [] "B" none none 19 19).moves.length = 4 ∧
      (RecordData.mk [("B", "Q16"), ("W", "D4"), ("B", "Q3"), ("W", "D16")]
        [] "B" none none 19 19).initialStones = []) ∧
    ((analyzeStreamingQuery "req"
        (RecordData.mk [("B", "Q16"), ("W", "D4"), ("B", "Q3"), ("W", "D16")]
          [] "B" none none 19 19) 100 none none).1.analyzeTurns
            = [0, 1, 2, 3] ∧
      (analyzeStreamingQuery "req"
        (RecordData.mk [("B", "Q16"), ("W", "D4"), ("B", "Q3"), ("W", "D16")]
          [] "B" none none 19 19) 100 none none).2.1 = 4 ∧
      (analyzeStreamingQuery "req"
        (RecordData.mk [("B", "Q16"), ("W", "D4"), ("B", "Q3"), ("W", "D16")]
          [] "B" none none 19 19) 100 none none).2.2 = 1) := by
  have h := full_range_stream_turns "req"
    (RecordData.mk [("B", "Q16"), ("W", "D4"), ("B", "Q3"), ("W", "D16")]
      [] "B" none none 19 19) 100 rfl rfl
  exact ⟨⟨rfl, rfl⟩, h.1, h.2.1, h.2.2.1⟩

lemma tableLookup_tableAppend (tbl : PendingTable) (k : String)
    (rs : List EngineResponse) :
    tableLookup (tableAppend tbl k rs) k
      = (tableLookup tbl k).map
          (fun e => ⟨e.numExpected, e.results ++ rs⟩) := by
  induction tbl with
  | nil => rfl
  | cons p rest ih =>
    unfold tableAppend tableLookup at ih ⊢
    rw [List.map_cons]
    by_cases h : p.1 = k
    · rw [if_pos h]
      rw [List.find?_cons, List.find?_cons]
      simp [h]
    · rw [if_neg h]
      rw [List.find?_cons, List.find?_cons]
      have hd : (decide (p.1 = k)) = false := by simpa using h
      simp only [hd]
      exact ih

/-- C4: the dispatcher appends a response line to a pending request's result
list exactly when the line parses as JSON, carries a recognized request id,
and has no top-level error field; a dropped line leaves every pending entry
unchanged and never terminates the dispatcher loop; an appended line extends
exactly the recognized id's result list.  The hypothesis reflects that table
keys are generated by `uuid4` and are never the empty string. -/
theorem dispatcher_append_iff (tbl : PendingTable) (line : Option RespLine)
    (hempty : tableLookup tbl "" = none) :
    ((dispatchStep tbl (.line line)).2.1 ≠ none ↔
      ∃ resp i, line = some resp ∧ resp.hasError = false ∧
        resp.id = some i ∧ (tableLookup tbl i).isSome = true) ∧
    ((dispatchStep tbl (.line line)).2.1 = none →
      (dispatchStep tbl (.line line)).1 = tbl) ∧
    (dispatchStep tbl (.line line)).2.2 = true ∧
    (∀ (resp : RespLine) (i : String) (entry : PendingEntry),
      line = some resp →
      (dispatchStep tbl (.line line)).2.1 = some i →
      tableLookup tbl i = some entry →
      tableLookup (dispatchStep tbl (.line line)).1 i
        = some ⟨entry.numExpected, entry.results ++ [resp.payload]⟩) := by
  cases line with
  | none =>
    refine ⟨?_, fun _ => rfl, rfl, ?_⟩
    · simp [dispatchStep]
    · intro resp i entry hresp
      cases hresp
  | some resp =>
    cases hid : resp.id with
    | none =>
      have hstep : dispatchStep tbl (.line (some resp)) = (tbl, none, true) := by
        unfold dispatchStep
        simp [pyTruthyStr, hid]
      refine ⟨?_, fun _ => by rw [hstep], by rw [hstep], ?_⟩
      · rw [hstep]
        simp only [ne_eq, not_true_eq_false, false_iff]
        rintro ⟨resp2, i, hresp2, herr, hid2, hlook⟩
        cases hresp2
        rw [hid] at hid2
        cases hid2
      · intro resp2 i entry hresp2 hdeliv
        rw [hstep] at hdeliv
        cases hdeliv
    | some i =>
      by_cases herr : resp.hasError = false
      · by_cases hi : i = ""
        · subst hi
          have hstep : dispatchStep tbl (.line (some resp)) = (tbl, none, true) := by
            unfold dispatchStep
            simp [pyTruthyStr, hid]
          refine ⟨?_, fun _ => by rw [hstep], by rw [hstep], ?_⟩
          · rw [hstep]
            simp only [ne_eq, not_true_eq_false, false_iff]
            rintro ⟨resp2, j, hresp2, herr2, hid2, hlook⟩
            cases hresp2
            rw [hid] at hid2
            cases hid2
            rw [hempty] at hlook
            simp at hlook
          · intro resp2 j entry hresp2 hdeliv
            rw [hstep] at hdeliv
            cases hdeliv
        · by_cases hlook : (tableLookup tbl i).isSome = true
          · have hstep : dispatchStep tbl (.line (some resp))
                = (tableAppend tbl i [resp.payload], some i, true) := by
              unfold dispatchStep
              simp [pyTruthyStr, hid, hi, herr, hlook]
            refine ⟨?_, ?_, by rw [hstep], ?_⟩
            · rw [hstep]
              simp only [ne_eq, Option.some_ne_none, not_false_eq_true, true_iff]
              exact ⟨resp, i, rfl, herr, hid, hlook⟩
            · intro hdeliv
              rw [hstep] at hdeliv
              cases hdeliv
            · intro resp2 j entry hresp2 hdeliv hentry
              cases hresp2
              rw [hstep] at hdeliv ⊢
              cases hdeliv
              rw [tableLookup_tableAppend, hentry]
              rfl
          · have hstep : dispatchStep tbl (.line (some resp)) = (tbl, none, true) := by
              unfold dispatchStep
              simp [pyTruthyStr, hid, hi, herr, hlook]
            refine ⟨?_, fun _ => by rw [hstep], by rw [hstep], ?_⟩
            · rw [hstep]
              simp only [ne_eq, not_true_eq_false, false_iff]
              rintro ⟨resp2, j, hresp2, herr2, hid2, hlook2⟩
              cases hresp2
              rw [hid] at hid2
              cases hid2
              exact hlook hlook2
            · intro resp2 j entry hresp2 hdeliv
              rw [hstep] at hdeliv
              cases hdeliv
      · have hstep : dispatchStep tbl (.line (some resp)) = (tbl, none, true) := by
          unfold dispatchStep
          simp [herr]
        refine ⟨?_, fun _ => by rw [hstep], by rw [hstep], ?_⟩
        · rw [hstep]
          simp only [ne_eq, not_true_eq_false, false_iff]
          rintro ⟨resp2, j, hresp2, herr2, hid2, hlook2⟩
          cases hresp2
          exact herr herr2
        · intro resp2 j entry hresp2 hdeliv
          rw [hstep] at hdeliv
          cases hdeliv

/-- Witness for `dispatcher_append_iff` on a one-entry table and a
well-formed line carrying its id. -/
theorem dispatcher_append_iff_witness :
    tableLookup [("abc", ⟨2, []⟩)] "" = none ∧
    ((dispatchStep [("abc", ⟨2, []⟩)]
        (.line (some ⟨some "abc", false, ⟨some 0, ⟨none, none, none⟩, []⟩⟩))).2.1
      ≠ none ↔
      ∃ resp i,
        (some (RespLine.mk (some "abc") false ⟨some 0, ⟨none, none, none⟩, []⟩)
          = some resp) ∧ resp.hasError = false ∧
        resp.id = some i ∧
        (tableLookup [("abc", ⟨2, []⟩)] i).isSome = true) :=
  ⟨rfl,
   (dispatcher_append_iff [("abc", ⟨2, []⟩)]
     (some ⟨some "abc", false, ⟨some 0, ⟨none, none, none⟩, []⟩⟩) rfl).1⟩

lemma mem_insertByOrder {z x : EngineMoveInfo} {l : List EngineMoveInfo} :
    z ∈ insertByOrder x l ↔ z = x ∨ z ∈ l := by
  induction l with
  | nil => simp [insertByOrder]
  | cons y ys ih =>
    unfold insertByOrder
    by_cases hlt : orderKey x < orderKey y
    · rw [if_pos hlt]
      simp
    · rw [if_neg hlt]
      simp only [List.mem_cons, ih]
      tauto

lemma insertByOrder_pairwise {x : EngineMoveInfo} {l : List EngineMoveInfo}
    (h : l.Pairwise (fun a b => orderKey a ≤ orderKey b)) :
    (insertByOrder x l).Pairwise (fun a b => orderKey a ≤ orderKey b) := by
  induction l with
  | nil => simp [insertByOrder]
  | cons y ys ih =>
    rw [List.pairwise_cons] at h
    unfold insertByOrder
    by_cases hlt : orderKey x < orderKey y
    · rw [if_pos hlt]
      rw [List.pairwise_cons]
      refine ⟨?_, List.pairwise_cons.mpr h⟩
      intro z hz
      rcases List.mem_cons.mp hz with rfl | hz'
      · omega
      · have := h.1 z hz'
        omega
    · rw [if_neg hlt]
      rw [List.pairwise_cons]
      refine ⟨?_, ih h.2⟩
      intro z hz
      rcases mem_insertByOrder.mp hz with rfl | hz'
      · omega
      · exact h.1 z hz'

lemma insertByOrder_filter {x : EngineMoveInfo} {l : List EngineMoveInfo}
    (hsor : l.Pairwise (fun a b => orderKey a ≤ orderKey b)) (k : Int) :
    (insertByOrder x l).filter (fun i => orderKey i = k)
      = l.filter (fun i => orderKey i = k)
        ++ [x].filter (fun i => orderKey i = k) := by
  induction l with
  | nil => simp [insertByOrder]
  | cons y ys ih =>
    rw [List.pairwise_cons] at hsor
    unfold insertByOrder
    by_cases hlt : orderKey x < orderKey y
    · rw [if_pos hlt]
      by_cases hk : orderKey x = k
      · have hys : (y :: ys).filter (fun i => orderKey i = k) = [] := by
          rw [List.filter_eq_nil_iff]
          intro a ha
          rcases List.mem_cons.mp ha with rfl | ha'
          · simp only [decide_eq_true_eq]
            omega
          · have := hsor.1 a ha'
            simp only [decide_eq_true_eq]
            omega
        rw [List.filter_cons_of_pos (by simpa using hk), hys]
        simp [hk]
      · rw [List.filter_cons_of_neg (by simpa using hk)]
        simp [hk]
    · rw [if_neg hlt]
      by_cases hy : orderKey y = k
      · rw [List.filter_cons_of_pos (by simpa using hy),
          List.filter_cons_of_pos (by simpa using hy)]
        rw [ih hsor.2]
        rfl
      · rw [List.filter_cons_of_neg (by simpa using hy),
          List.filter_cons_of_neg (by simpa using hy)]
        exact ih hsor.2

lemma sortByOrder_foldl_aux (l : List EngineMoveInfo) :
    ∀ (acc : List EngineMoveInfo),
      acc.Pairwise (fun a b => orderKey a ≤ orderKey b) →
      (l.foldl (fun a x => insertByOrder x a) acc).Pairwise
          (fun a b => orderKey a ≤ orderKey b) ∧
      ∀ k : Int,
        (l.foldl (fun a x => insertByOrder x a) acc).filter
            (fun i => orderKey i = k)
          = acc.filter (fun i => orderKey i = k)
            ++ l.filter (fun i => orderKey i = k) := by
  induction l with
  | nil =>
    intro acc hacc
    exact ⟨hacc, fun k => by simp⟩
  | cons x rest ih =>
    intro acc hacc
    have hx := insertByOrder_pairwise (x := x) hacc
    obtain ⟨hp, hf⟩ := ih (insertByOrder x acc) hx
    refine ⟨hp, fun k => ?_⟩
    rw [List.foldl_cons]
    rw [hf k, insertByOrder_filter hacc k]
    by_cases hk : orderKey x = k
    · rw [List.filter_cons_of_pos (by simpa using hk)]
      simp [hk]
    · rw [List.filter_cons_of_neg (by simpa using hk)]
      simp [hk]

lemma annotateVariationsAux_eq (played : Option String) :
    ∀ (l : List EngineMoveInfo) (count : Nat), count < 3 →
      annotateVariationsAux played l count
        = (l.filter (fun i => i.move ≠ played)).take (3 - count) := by
  intro l
  induction l with
  | nil =>
    intro count _
    simp [annotateVariationsAux]
  | cons info rest ih =>
    intro count hcount
    unfold annotateVariationsAux
    by_cases hm : info.move ≠ played
    · rw [if_pos hm, List.filter_cons_of_pos (by simpa using hm)]
      by_cases hc : count + 1 ≥ 3
      · rw [if_pos hc]
        have h2 : count = 2 := by omega
        subst h2
        rfl
      · rw [if_neg hc]
        rw [ih (count + 1) (by omega)]
        have : 3 - count = (3 - (count + 1)) + 1 := by omega
        rw [this]
        rfl
    · rw [if_neg hm, List.filter_cons_of_neg (by simpa using hm)]
      exact ih count hcount

lemma playChild_foldl_length (ms : List GoMove) :
    ∀ children : List (Option GoMove),
      (ms.foldl playChild children).length ≤ children.length + ms.length := by
  induction ms with
  | nil => intro children; simp
  | cons m rest ih =>
    intro children
    rw [List.foldl_cons]
    have h1 : (playChild children m).length ≤ children.length + 1 := by
      unfold playChild
      split
      · omega
      · simp
    have := ih (playChild children m)
    have hcons : (m :: rest).length = rest.length + 1 := rfl
    omega

/-- C7: for each analyzed node, the annotation step considers candidates in
ascending engine rank (stable in input order for equal ranks), creates a
variation only for candidates whose coordinate text differs from the move
actually played, stops after three, and therefore adds at most three new
sibling branches to the node's children. -/
theorem annotation_variation_bound (infos : List EngineMoveInfo)
    (played : Option String) :
    (annotateVariations infos played).length ≤ 3 ∧
    (∀ i ∈ annotateVariations infos played, i.move ≠ played) ∧
    annotateVariations infos played
      = ((sortByOrder infos).filter (fun i => i.move ≠ played)).take 3 ∧
    (sortByOrder infos).Pairwise (fun a b => orderKey a ≤ orderKey b) ∧
    (∀ k : Int, (sortByOrder infos).filter (fun i => orderKey i = k)
      = infos.filter (fun i => orderKey i = k)) ∧
    (∀ (children : List (Option GoMove)) (ms : List GoMove),
      ms.length = (annotateVariations infos played).length →
      (ms.foldl playChild children).length ≤ children.length + 3) := by
  have heq : annotateVariations infos played
      = ((sortByOrder infos).filter (fun i => i.move ≠ played)).take 3 := by
    unfold annotateVariations
    rw [annotateVariationsAux_eq played _ 0 (by omega)]
  have hsort := sortByOrder_foldl_aux infos [] (by simp)
  have hlen : (annotateVariations infos played).length ≤ 3 := by
    rw [heq]
    exact List.length_take_le 3 _
  refine ⟨hlen, ?_, heq, hsort.1, ?_, ?_⟩
  · intro i hi
    rw [heq] at hi
    have := List.mem_of_mem_take hi
    have := List.of_mem_filter this
    simpa using this
  · intro k
    have := hsort.2 k
    simpa using this
  · intro children ms hms
    have := playChild_foldl_length ms children
    omega

lemma moveChain_ne_nil {l : List (String × String)} (h : l ≠ []) :
    moveChain l ≠ [] := by
  cases l with
  | nil => exact absurd rfl h
  | cons a rest => simp [moveChain]

/-- C9: neither legacy parser ever returns a tree with no move nodes: a
successful `parse_ngf` or `parse_gib` run always yields a root with at least
one child, since an input producing zero moves raises a `ParseError`
instead. -/
theorem legacy_zero_moves_rejected :
    (∀ (s : String) (t : SGFTree), parseNgf s = .ok t →
      SGFTree.children t ≠ []) ∧
    (∀ (s : String) (t : SGFTree), parseGib s = .ok t →
      SGFTree.children t ≠ []) := by
  constructor
  · intro s t h
    unfold parseNgf at h
    split at h
    · exact Except.noConfusion h
    · split at h
      · exact Except.noConfusion h
      · split at h
        · exact Except.noConfusion h
        · rename_i hmoves
          injection h with h2
          subst h2
          exact moveChain_ne_nil hmoves
  · intro s t h
    unfold parseGib at h
    split at h
    · exact Except.noConfusion h
    · split at h
      · exact Except.noConfusion h
      · rename_i hmoves
        injection h with h2
        subst h2
        exact moveChain_ne_nil hmoves

/-- Witness for `legacy_zero_moves_rejected`: a one-move NGF input and a
one-move GIB input. -/
theorem legacy_zero_moves_rejected_witness :
    (parseNgf "PM01Bpd"
        = .ok (SGFTree.node [("SZ", [.int 19])]
            [SGFTree.node [("B", [.str "oc"])] []]) ∧
      SGFTree.children (SGFTree.node [("SZ", [.int 19])]
        [SGFTree.node [("B", [.str "oc"])] []]) ≠ []) ∧
    (parseGib "STO 0 2 1 2 3"
        = .ok (SGFTree.node []
            [SGFTree.node [("B", [.str "cd"])] []]) ∧
      SGFTree.children (SGFTree.node []
        [SGFTree.node [("B", [.str "cd"])] []]) ≠ []) :=
  ⟨⟨rfl, legacy_zero_moves_rejected.1 "PM01Bpd" _ rfl⟩,
   ⟨rfl, legacy_zero_moves_rejected.2 "STO 0 2 1 2 3" _ rfl⟩⟩

lemma parseBranch_closes :
    ∀ (n : Nat) (toks : List (Tok × List Char)) (term : Term) (cur : SGFTree),
      toks.length ≤ n →
      (∀ e, parseBranch toks term cur = .error e →
        e = termErr term ∧ ∀ d, closesScan (tokKinds toks) d = false) ∧
      (∀ t (r : {r : List (Tok × List Char) // r.length ≤ toks.length}),
        parseBranch toks term cur = .ok (t, r) →
        closesScan (tokKinds toks) 0 = true ∧
        ∀ d, closesScan (tokKinds toks) (d + 1)
          = closesScan (tokKinds r.val) d) := by
  intro n
  induction n using Nat.strong_induction_on with
  | _ n ih =>
    intro toks term cur hn
    match toks with
    | [] =>
      constructor
      · intro e he
        cases term <;>
          (rw [parseBranch.eq_def] at he
           dsimp only at he
           injection he with h2
           subst h2
           exact ⟨rfl, fun d => rfl⟩)
      · intro t r hok
        cases term <;>
          (rw [parseBranch.eq_def] at hok
           dsimp only at hok
           exact Except.noConfusion hok)
    | (tok, suffix) :: rest =>
      have hrn : rest.length < n := by
        simp at hn
        omega
      match tok with
      | .closeB =>
        constructor
        · intro e he
          rw [parseBranch.eq_def] at he
          dsimp only at he
          exact Except.noConfusion he
        · intro t r hok
          rw [parseBranch.eq_def] at hok
          dsimp only at hok
          injection hok with h2
          injection h2 with h3 h4
          subst h3
          constructor
          · simp [tokKinds, closesScan]
          · intro d
            have hv : r.val = rest := by rw [← h4]
            rw [hv]
            simp [tokKinds, closesScan]
      | .openB =>
        constructor
        · intro e he
          rw [parseBranch.eq_def] at he
          dsimp only at he
          rcases h1 : parseBranch rest term (SGFTree.node [] []) with e1 | ⟨child, rest2, h2⟩
          · rw [h1] at he
            dsimp only at he
            injection he with h3
            subst h3
            obtain ⟨he1, hscan⟩ := (ih rest.length hrn rest term _ le_rfl).1 e1 h1
            refine ⟨he1, fun d => ?_⟩
            simp only [tokKinds, List.map_cons, closesScan]
            exact hscan (d + 1)
          · rw [h1] at he
            dsimp only at he
            rcases h2' : parseBranch rest2 term (addChild cur child)
              with e2 | ⟨cur2, rest3, h3⟩
            · rw [h2'] at he
              dsimp only at he
              injection he with h3
              subst h3
              have hok1 := (ih rest.length hrn rest term _ le_rfl).2 child
                ⟨rest2, h2⟩ h1
              have herr2 := ((ih rest2.length (by omega) rest2 term _ le_rfl).1
                e2 h2')
              refine ⟨herr2.1, fun d => ?_⟩
              simp only [tokKinds, List.map_cons, closesScan]
              have := hok1.2 d
              simp only [tokKinds] at this
              rw [this]
              exact herr2.2 d
            · rw [h2'] at he
              dsimp only at he
              exact Except.noConfusion he
        · intro t r hok
          rw [parseBranch.eq_def] at hok
          dsimp only at hok
          rcases h1 : parseBranch rest term (SGFTree.node [] []) with e1 | ⟨child, rest2, h2⟩
          · rw [h1] at hok
            dsimp only at hok
            exact Except.noConfusion hok
          · rw [h1] at hok
            dsimp only at hok
            rcases h2' : parseBranch rest2 term (addChild cur child)
              with e2 | ⟨cur2, rest3, h3⟩
            · rw [h2'] at hok
              dsimp only at hok
              exact Except.noConfusion hok
            · rw [h2'] at hok
              dsimp only at hok
              injection hok with h4
              injection h4 with h5 h6
              subst h5
              have hok1 := (ih rest.length hrn rest term _ le_rfl).2 child
                ⟨rest2, h2⟩ h1
              have hok2 := (ih rest2.length (by omega) rest2 term _ le_rfl).2
                cur2 ⟨rest3, h3⟩ h2'
              have hv : r.val = rest3 := by rw [← h6]
              constructor
              · simp only [tokKinds, List.map_cons, closesScan]
                have := hok1.2 0
                simp only [tokKinds] at this
                rw [this]
                exact hok2.1
              · intro d
                rw [hv]
                simp only [tokKinds, List.map_cons, closesScan]
                have ha := hok1.2 (d + 1)
                simp only [tokKinds] at ha
                rw [ha]
                exact hok2.2 d
      | .semi =>
        have hpass : ∀ (cur2 : SGFTree),
            (∀ e, parseBranch rest term cur2 = .error e →
              e = termErr term ∧
              ∀ d, closesScan (tokKinds ((Tok.semi, suffix) :: rest)) d = false) ∧
            (∀ t2 (r2 : {r : List (Tok × List Char) // r.length ≤ rest.length}),
              parseBranch rest term cur2 = .ok (t2, r2) →
              closesScan (tokKinds ((Tok.semi, suffix) :: rest)) 0 = true ∧
              ∀ d, closesScan (tokKinds ((Tok.semi, suffix) :: rest)) (d + 1)
                = closesScan (tokKinds r2.val) d) := by
          intro cur2
          have hi := ih rest.length hrn rest term cur2 le_rfl
          constructor
          · intro e he
            obtain ⟨h1, h2⟩ := hi.1 e he
            exact ⟨h1, fun d => by
              simp only [tokKinds, List.map_cons, closesScan]
              exact h2 d⟩
          · intro t2 r2 hok
            obtain ⟨h1, h2⟩ := hi.2 t2 r2 hok
            constructor
            · simp only [tokKinds, List.map_cons, closesScan]
              exact h1
            · intro d
              simp only [tokKinds, List.map_cons, closesScan]
              exact h2 d
        constructor
        · intro e he
          rw [parseBranch.eq_def] at he
          dsimp only at he
          split at he
          · rcases h1 : parseBranch rest term cur with e1 | ⟨cur2, rest2, h2⟩
            · rw [h1] at he
              dsimp only at he
              injection he with h3
              subst h3
              exact (hpass cur).1 e1 h1
            · rw [h1] at he
              dsimp only at he
              exact Except.noConfusion he
          · rcases h1 : parseBranch rest term (SGFTree.node [] [])
              with e1 | ⟨child, rest2, h2⟩
            · rw [h1] at he
              dsimp only at he
              injection he with h3
              subst h3
              exact (hpass _).1 e1 h1
            · rw [h1] at he
              dsimp only at he
              exact Except.noConfusion he
        · intro t r hok
          rw [parseBranch.eq_def] at hok
          dsimp only at hok
          split at hok
          · rcases h1 : parseBranch rest term cur with e1 | ⟨cur2, rest2, h2⟩
            · rw [h1] at hok
              dsimp only at hok
              exact Except.noConfusion hok
            · rw [h1] at hok
              dsimp only at hok
              injection hok with h4
              injection h4 with h5 h6
              subst h5
              have := (hpass cur).2 cur2 ⟨rest2, h2⟩ h1
              refine ⟨this.1, fun d => ?_⟩
              have hv : r.val = rest2 := by rw [← h6]
              rw [hv]
              exact this.2 d
          · rcases h1 : parseBranch rest term (SGFTree.node [] [])
              with e1 | ⟨child, rest2, h2⟩
            · rw [h1] at hok
              dsimp only at hok
              exact Except.noConfusion hok
            · rw [h1] at hok
              dsimp only at hok
              injection hok with h4
              injection h4 with h5 h6
              have := (hpass _).2 child ⟨rest2, h2⟩ h1
              refine ⟨this.1, fun d => ?_⟩
              have hv : r.val = rest2 := by rw [← h6]
              rw [hv]
              exact this.2 d
      | .prop tag rawInner =>
        constructor
        · intro e he
          rw [parseBranch.eq_def] at he
          dsimp only at he
          rcases h1 : parseBranch rest term
              (addListProp cur tag (propValues rawInner))
            with e1 | ⟨cur2, rest2, h2⟩
          · rw [h1] at he
            dsimp only at he
            injection he with h3
            subst h3
            obtain ⟨ha, hb⟩ := (ih rest.length hrn rest term _ le_rfl).1 e1 h1
            exact ⟨ha, fun d => by
              simp only [tokKinds, List.map_cons, closesScan]
              exact hb d⟩
          · rw [h1] at he
            dsimp only at he
            exact Except.noConfusion he
        · intro t r hok
          rw [parseBranch.eq_def] at hok
          dsimp only at hok
          rcases h1 : parseBranch rest term
              (addListProp cur tag (propValues rawInner))
            with e1 | ⟨cur2, rest2, h2⟩
          · rw [h1] at hok
            dsimp only at hok
            exact Except.noConfusion hok
          · rw [h1] at hok
            dsimp only at hok
            injection hok with h4
            injection h4 with h5 h6
            subst h5
            obtain ⟨ha, hb⟩ := (ih rest.length hrn rest term _ le_rfl).2 cur2
              ⟨rest2, h2⟩ h1
            constructor
            · simp only [tokKinds, List.map_cons, closesScan]
              exact ha
            · intro d
              have hv : r.val = rest2 := by rw [← h6]
              rw [hv]
              simp only [tokKinds, List.map_cons, closesScan]
              exact hb d

/-- C8: the primary-format parser is total and strict: it returns a tree
exactly when the input has an opening `(` and the token scan after it
reaches a `)` closing the game tree through recognized tokens only; a
missing `(` raises the start error, and otherwise an unrecognized token
(`garbage` terminator) raises the unexpected-character error while clean
end-of-input before the closing `)` raises the expected-`)` error — the
parser never recovers and returns a partial tree. -/
theorem sgf_parser_total_and_strict (contents : String) :
    ((∃ t, sgfInit contents = .ok t) ↔
      (∃ after, dropThroughParen contents.toList = some after ∧
        closesScan (tokKinds (tokenize after).1) 0 = true)) ∧
    (dropThroughParen contents.toList = none →
      sgfInit contents = .error .expectedOpenAtStart) ∧
    (∀ after, dropThroughParen contents.toList = some after →
      closesScan (tokKinds (tokenize after).1) 0 = false →
      sgfInit contents = .error (termErr (tokenize after).2)) := by
  refine ⟨⟨?_, ?_⟩, ?_, ?_⟩
  · rintro ⟨t, ht⟩
    unfold sgfInit at ht
    rcases hd : dropThroughParen contents.toList with _ | after
    · rw [hd] at ht
      exact Except.noConfusion ht
    · rw [hd] at ht
      dsimp only at ht
      rcases hp : parseBranch (tokenize after).1 (tokenize after).2
          (SGFTree.node [] []) with e | ⟨root, r⟩
      · rw [hp] at ht
        exact Except.noConfusion ht
      · have := (parseBranch_closes (tokenize after).1.length (tokenize after).1
          (tokenize after).2 (SGFTree.node [] []) le_rfl).2 root r hp
        exact ⟨after, rfl, this.1⟩
  · rintro ⟨after, hd, hscan⟩
    unfold sgfInit
    rw [hd]
    dsimp only
    rcases hp : parseBranch (tokenize after).1 (tokenize after).2
        (SGFTree.node [] []) with e | ⟨root, r⟩
    · have := (parseBranch_closes (tokenize after).1.length (tokenize after).1
        (tokenize after).2 (SGFTree.node [] []) le_rfl).1 e hp
      rw [this.2 0] at hscan
      exact Bool.noConfusion hscan
    · exact ⟨root, rfl⟩
  · intro hd
    unfold sgfInit
    rw [hd]
  · intro after hd hscan
    unfold sgfInit
    rw [hd]
    dsimp only
    rcases hp : parseBranch (tokenize after).1 (tokenize after).2
        (SGFTree.node [] []) with e | ⟨root, r⟩
    · have := (parseBranch_closes (tokenize after).1.length (tokenize after).1
        (tokenize after).2 (SGFTree.node [] []) le_rfl).1 e hp
      dsimp only
      rw [this.1]
    · have := (parseBranch_closes (tokenize after).1.length (tokenize after).1
        (tokenize after).2 (SGFTree.node [] []) le_rfl).2 root r hp
      rw [this.1] at hscan
      exact Bool.noConfusion hscan

/-- Witness for `annotation_variation_bound` at a concrete candidate list. -/
theorem annotation_variation_bound_witness :
    (annotateVariations
      [⟨some "Q16", none, none, none, some 0, none⟩,
       ⟨some "D4", none, none, none, some 1, none⟩] (some "Q16")).length ≤ 3 ∧
    (∀ i ∈ annotateVariations
      [⟨some "Q16", none, none, none, some 0, none⟩,
       ⟨some "D4", none, none, none, some 1, none⟩] (some "Q16"),
        i.move ≠ some "Q16") :=
  ⟨(annotation_variation_bound
      [⟨some "Q16", none, none, none, some 0, none⟩,
       ⟨some "D4", none, none, none, some 1, none⟩] (some "Q16")).1,
   (annotation_variation_bound
      [⟨some "Q16", none, none, none, some 0, none⟩,
       ⟨some "D4", none, none, none, some 1, none⟩] (some "Q16")).2.1⟩

/-- Witness for `sgf_parser_total_and_strict`: an input with no opening
parenthesis is rejected with the start error. -/
theorem sgf_parser_total_and_strict_witness :
    dropThroughParen "junk".toList = none ∧
    sgfInit "junk" = .error .expectedOpenAtStart :=
  ⟨rfl, (sgf_parser_total_and_strict "junk").2.1 rfl⟩
